import Mathlib

/-!
# Verification of the TEI → JSON mixed-content conversion core

Shallow embedding of the mixed-content normalization engine of
`postgres-import/convert_tei_to_json.py` (class `TEIConverter`) and
`postgres-import/import_tei_to_postgres.py` (class `TEIImporter`).
The two files contain line-identical copies of the core methods
`serialize_mixed_content`, `handle_mixed_content_elements`,
`clean_mixed_content_duplicates`, `extract_mixed_content_from_json` and
`tei_to_json`; every definition below therefore embeds both at once.

Python `dict`s (insertion ordered, unique keys) are modelled as association
lists `List (String × J)`; the dict operations below (`lookupJ`, `setKeyJ`,
`eraseKeyJ`, `updateDict`) implement the Python semantics: lookup finds the
first entry, assignment overwrites in place keeping the position, update
appends unknown keys at the end, deletion removes the key.  On well-formed
(unique-key) dicts they agree with Python; where they act on all duplicates
at once this is noted.
-/

/-- JSON-compatible values as produced by `json.loads` / consumed by
`json.dumps` in the converter: strings, `None`, arrays and objects.  The
converter never creates numbers or booleans, so they are omitted. -/
inductive J where
  | str : String → J
  | null : J
  | arr : List J → J
  | obj : List (String × J) → J

/-- Python `data[k]` / `k in data`: first entry with the given key. -/
def lookupJ (k : String) : List (String × J) → Option J
  | [] => none
  | kv :: d => if kv.1 == k then some kv.2 else lookupJ k d

/-- Python `del data[k]` / `data.pop(k, None)`.  (Removes every entry with
the key; on unique-key dicts this is the single entry Python removes.) -/
def eraseKeyJ (k : String) : List (String × J) → List (String × J)
  | [] => []
  | kv :: d => if kv.1 == k then eraseKeyJ k d else kv :: eraseKeyJ k d

/-- `d.any (·.1 == k)`: Python `k in data`. -/
def hasKey (k : String) (d : List (String × J)) : Bool :=
  d.any (fun kv => kv.1 == k)

/-- Python `data[k] = v`: overwrite in place if the key exists (keeping its
position), otherwise append at the end. -/
def setKeyJ (k : String) (v : J) (d : List (String × J)) : List (String × J) :=
  if hasKey k d then d.map (fun kv => if kv.1 == k then (kv.1, v) else kv)
  else d ++ [(k, v)]

/-- Python `data.update(m)`: assign every entry of `m` into `d` in order. -/
def updateDict (d m : List (String × J)) : List (String × J) :=
  m.foldl (fun acc kv => setKeyJ kv.1 kv.2 acc) d

/-- String-length-aware size measure on `J`.  A string weighs its length so
that the output of a JSON parser applied to a string is smaller than the
string itself (see `ParseFn`), which makes the reconciliation pass
terminate. -/
def sizeJ : J → Nat
  | .str s => s.length + 1
  | .null => 1
  | .arr l => (l.attach.map (fun x => sizeJ x.1)).sum + 1
  | .obj d => (d.attach.map (fun kv => sizeJ kv.1.2 + 1)).sum + 1
decreasing_by
  · have h := List.sizeOf_lt_of_mem x.2
    simp only [J.arr.sizeOf_spec]
    omega
  · have h := List.sizeOf_lt_of_mem kv.2
    obtain ⟨⟨a, b⟩, hm⟩ := kv
    simp only [Prod.mk.sizeOf_spec] at h
    simp only [J.obj.sizeOf_spec]
    omega

theorem sizeJ_str (s : String) : sizeJ (.str s) = s.length + 1 := by rw [sizeJ]

theorem sizeJ_null : sizeJ .null = 1 := by rw [sizeJ]

theorem sizeJ_arr (l : List J) : sizeJ (.arr l) = (l.map sizeJ).sum + 1 := by
  rw [sizeJ]
  exact congrArg (· + 1) (congrArg List.sum (List.attach_map_coe l sizeJ))

theorem sizeJ_obj (d : List (String × J)) :
    sizeJ (.obj d) = (d.map (fun kv => sizeJ kv.2 + 1)).sum + 1 := by
  rw [sizeJ]
  exact congrArg (· + 1)
    (congrArg List.sum (List.attach_map_coe d (fun kv => sizeJ kv.2 + 1)))

theorem sizeJ_pos (x : J) : 1 ≤ sizeJ x := by
  cases x
  · rw [sizeJ_str]; omega
  · rw [sizeJ_null]
  · rw [sizeJ_arr]; omega
  · rw [sizeJ_obj]; omega

theorem sizeJ_lt_of_mem_arr {x : J} {l : List J} (h : x ∈ l) :
    sizeJ x < sizeJ (.arr l) := by
  rw [sizeJ_arr]
  have : sizeJ x ≤ (l.map sizeJ).sum := List.le_sum_of_mem (List.mem_map_of_mem sizeJ h)
  omega

theorem sizeJ_lt_of_mem_obj {kv : String × J} {d : List (String × J)} (h : kv ∈ d) :
    sizeJ kv.2 < sizeJ (.obj d) := by
  rw [sizeJ_obj]
  have : sizeJ kv.2 + 1 ≤ (d.map (fun kv => sizeJ kv.2 + 1)).sum :=
    List.le_sum_of_mem (List.mem_map_of_mem _ h)
  omega

/-- Strong induction principle for `J` that exposes membership in the
nested lists. -/
theorem J.indOn {motive : J → Prop}
    (hstr : ∀ s, motive (.str s)) (hnull : motive .null)
    (harr : ∀ l, (∀ x ∈ l, motive x) → motive (.arr l))
    (hobj : ∀ d, (∀ kv ∈ d, motive kv.2) → motive (.obj d)) : ∀ x, motive x := by
  have H : ∀ n x, sizeJ x ≤ n → motive x := by
    intro n
    induction n with
    | zero =>
      intro x hx
      have := sizeJ_pos x
      omega
    | succ n ih =>
      intro x hx
      match x with
      | .str s => exact hstr s
      | .null => exact hnull
      | .arr l =>
        refine harr l (fun y hy => ih y ?_)
        have := sizeJ_lt_of_mem_arr hy
        omega
      | .obj d =>
        refine hobj d (fun kv hkv => ih kv.2 ?_)
        have := sizeJ_lt_of_mem_obj hkv
        omega
  exact fun x => H (sizeJ x) x le_rfl

theorem mem_values_setKeyJ {kv : String × J} {k : String} {v : J}
    {d : List (String × J)} (h : kv ∈ setKeyJ k v d) :
    kv ∈ d ∨ kv.2 = v := by
  unfold setKeyJ at h
  by_cases hc : hasKey k d
  · simp only [hc, if_true] at h
    obtain ⟨kv0, hm, he⟩ := List.mem_map.mp h
    by_cases hk : kv0.1 == k
    · simp only [hk, if_true] at he
      right
      rw [← he]
    · simp only [hk] at he
      simp only [Bool.false_eq_true, if_false] at he
      left
      rw [← he]
      exact hm
  · simp only [hc, if_false] at h
    rcases List.mem_append.mp h with h1 | h1
    · exact Or.inl h1
    · right
      simp only [List.mem_singleton] at h1
      rw [h1]

theorem mem_values_updateDict {kv : String × J} {d m : List (String × J)}
    (h : kv ∈ updateDict d m) :
    kv ∈ d ∨ ∃ kv0 ∈ m, kv.2 = kv0.2 := by
  induction m generalizing d with
  | nil => exact Or.inl h
  | cons a m ih =>
    unfold updateDict at h
    simp only [List.foldl_cons] at h
    rcases ih h with h1 | h1
    · rcases mem_values_setKeyJ h1 with h2 | h2
      · exact Or.inl h2
      · exact Or.inr ⟨a, List.mem_cons_self a m, h2⟩
    · obtain ⟨kv0, hm, he⟩ := h1
      exact Or.inr ⟨kv0, List.mem_cons_of_mem a hm, he⟩

theorem mem_eraseKeyJ {kv : String × J} {k : String} {d : List (String × J)}
    (h : kv ∈ eraseKeyJ k d) : kv ∈ d := by
  induction d with
  | nil => simp [eraseKeyJ] at h
  | cons a d ih =>
    unfold eraseKeyJ at h
    by_cases hk : a.1 == k
    · simp only [hk, if_true] at h
      exact List.mem_cons_of_mem a (ih h)
    · simp only [hk] at h
      simp only [Bool.false_eq_true, if_false, List.mem_cons] at h
      rcases h with h | h
      · exact h ▸ List.mem_cons_self a d
      · exact List.mem_cons_of_mem a (ih h)

theorem lookupJ_mem {k : String} {v : J} {d : List (String × J)}
    (h : lookupJ k d = some v) : (k, v) ∈ d := by
  induction d with
  | nil => simp [lookupJ] at h
  | cons a d ih =>
    unfold lookupJ at h
    by_cases hk : a.1 == k
    · simp only [hk, if_true, Option.some.injEq] at h
      have : a = (k, v) := by
        obtain ⟨a1, a2⟩ := a
        simp only at hk h
        rw [eq_of_beq hk, h]
      rw [← this]
      exact List.mem_cons_self a d
    · simp only [hk] at h
      simp only [Bool.false_eq_true, if_false] at h
      exact List.mem_cons_of_mem a (ih h)

/-!
## The dedup pass: `clean_mixed_content_duplicates`
(convert_tei_to_json.py lines 138–168, import_tei_to_postgres.py 145–175)
-/

/-- The set `element_types = {item.get('type') for item in data['content']
if isinstance(item, dict)}`.  Python's set also contains `None` for dict
items without a `'type'` key; since a string key never compares equal to
`None`, omitting those entries does not change any membership test
performed on the set (which is only ever probed with string keys).
Iterating a non-list `content` value yields no dict items (characters of a
string, keys of a dict), hence `[]`. -/
def segType : J → Option J
  | .obj seg => lookupJ "type" seg
  | _ => none

def elementTypes : J → List J
  | .arr l => l.filterMap segType
  | _ => []

/-- Whether the Python value `t` equals the string `k` (a non-string value
never equals a string). -/
def strHit (t : J) (k : String) : Bool :=
  match t with
  | .str s => s == k
  | _ => false

/-- Python `key in element_types` where `key` is a string: true iff the set
contains that very string (equality with a non-string element is `False`). -/
def memStrTypes (ets : List J) (k : String) : Bool :=
  ets.any (fun t => strHit t k)

/-- Python `key.startswith('@')`. -/
def isAttrKey (k : String) : Bool :=
  match k.data with
  | c :: _ => c == '@'
  | [] => false

/-- A key survives the dedup removal at a node whose `content` value has
element types `ets`: the code pops the empty key unconditionally and pops
any key that is neither `'content'`/`'type'` nor `@`-prefixed and whose
name occurs among the segment types. -/
def keepKey (ets : List J) (k : String) : Bool :=
  !(k == "") && (k == "content" || k == "type" || isAttrKey k || !(memStrTypes ets k))

/-- The in-place pops of `clean_mixed_content_duplicates` applied to the
entry list `e`, with the element types computed from the original node `d`
(the pops happen before the values are recursively cleaned; since they
select by key only and the recursive cleaning of values keeps every key,
popping first and recursing after equals recursing on all entries and then
filtering by key, which is the form used here). -/
def applyPop (d e : List (String × J)) : List (String × J) :=
  match lookupJ "content" d with
  | none => e
  | some c => e.filter (fun kv => keepKey (elementTypes c) kv.1)

/-- `TEIConverter.clean_mixed_content_duplicates` /
`TEIImporter.clean_mixed_content_duplicates`: if the node has a `content`
key, pop the empty key and every non-attribute key occurring among the
segment types; then rebuild the dict with all values recursively cleaned;
recurse into lists; return every other value unchanged. -/
def clean_mixed_content_duplicates : J → J
  | .str s => .str s
  | .null => .null
  | .arr l => .arr (l.attach.map (fun x => clean_mixed_content_duplicates x.1))
  | .obj d => .obj (applyPop d
      (d.attach.map (fun kv => (kv.1.1, clean_mixed_content_duplicates kv.1.2))))
decreasing_by
  · have h := List.sizeOf_lt_of_mem x.2
    simp only [J.arr.sizeOf_spec]
    omega
  · have h := List.sizeOf_lt_of_mem kv.2
    obtain ⟨⟨a, b⟩, hm⟩ := kv
    simp only [Prod.mk.sizeOf_spec] at h
    simp only [J.obj.sizeOf_spec]
    omega

theorem clean_str (s : String) :
    clean_mixed_content_duplicates (.str s) = .str s := by
  rw [clean_mixed_content_duplicates]

theorem clean_null : clean_mixed_content_duplicates .null = .null := by
  rw [clean_mixed_content_duplicates]

theorem clean_arr (l : List J) :
    clean_mixed_content_duplicates (.arr l) =
      .arr (l.map clean_mixed_content_duplicates) := by
  rw [clean_mixed_content_duplicates]
  exact congrArg J.arr (List.attach_map_coe l clean_mixed_content_duplicates)

theorem clean_obj (d : List (String × J)) :
    clean_mixed_content_duplicates (.obj d) =
      .obj (applyPop d (d.map (fun kv => (kv.1, clean_mixed_content_duplicates kv.2)))) := by
  rw [clean_mixed_content_duplicates]
  exact congrArg J.obj (congrArg (applyPop d)
    (List.attach_map_coe d (fun kv => (kv.1, clean_mixed_content_duplicates kv.2))))

/-!
## The reconciliation pass: `extract_mixed_content_from_json`
(convert_tei_to_json.py lines 170–198, import_tei_to_postgres.py 177–205)

`json.loads` is library code; it is modelled by a parameter `ParseFn`.  In
the pipeline the auxiliary attribute always holds the `json.dumps`
serialization of an object, so a successful parse yields an object's entry
list (`data.update` is applied to the result); failure (`JSONDecodeError`)
is `none`.  Any JSON text a real parser accepts as an object spends at
least two characters (braces, quotes, separators) beyond each value it
returns, so its output is smaller than the input string under `sizeJ`;
the `bound` field records exactly the consequence needed for termination.
-/

structure ParseFn where
  run : String → Option (List (String × J))
  bound : ∀ s m, run s = some m → sizeJ (J.obj m) ≤ s.length

/-- The `try`/`except` block at the head of
`extract_mixed_content_from_json`: if the node has a `'mixed-content-json'`
key whose (string) value parses, merge the parsed entries with
`data.update` and delete the auxiliary key; on `JSONDecodeError` leave the
dict untouched (in particular the auxiliary key itself stays). -/
def stepA (p : ParseFn) (d : List (String × J)) : List (String × J) :=
  match lookupJ "mixed-content-json" d with
  | some (.str s) =>
    match p.run s with
    | some m => eraseKeyJ "mixed-content-json" (updateDict d m)
    | none => d
  | _ => d

theorem sizeJ_lt_of_mem_stepA {p : ParseFn} {kv : String × J}
    {d : List (String × J)} (h : kv ∈ stepA p d) : sizeJ kv.2 < sizeJ (.obj d) := by
  unfold stepA at h
  split at h
  case _ s haux =>
    split at h
    case _ m hrun =>
      rcases mem_values_updateDict (mem_eraseKeyJ h) with h1 | h1
      · exact sizeJ_lt_of_mem_obj h1
      · obtain ⟨kv0, hm, he⟩ := h1
        have h2 : sizeJ kv0.2 < sizeJ (.obj m) := sizeJ_lt_of_mem_obj hm
        have h3 : sizeJ (.obj m) ≤ s.length := p.bound s m hrun
        have h4 : sizeJ (J.str s) < sizeJ (.obj d) :=
          sizeJ_lt_of_mem_obj (lookupJ_mem haux)
        rw [sizeJ_str] at h4
        rw [he]
        omega
    case _ hrun => exact sizeJ_lt_of_mem_obj h
  case _ hother => exact sizeJ_lt_of_mem_obj h

/-- `TEIConverter.extract_mixed_content_from_json` /
`TEIImporter.extract_mixed_content_from_json`: at a dict, first run the
merge step (`stepA`), then recurse into every value, then apply the dedup
pass to the result; at a list, recurse into every item; return everything
else unchanged. -/
def extract_mixed_content_from_json (p : ParseFn) : J → J
  | .obj d =>
    clean_mixed_content_duplicates (.obj ((stepA p d).attach.map
      (fun kv => (kv.1.1, extract_mixed_content_from_json p kv.1.2))))
  | .arr l => .arr (l.attach.map (fun x => extract_mixed_content_from_json p x.1))
  | .str s => .str s
  | .null => .null
termination_by x => sizeJ x
decreasing_by
  · exact sizeJ_lt_of_mem_stepA kv.2
  · exact sizeJ_lt_of_mem_arr x.2

theorem extract_str (p : ParseFn) (s : String) :
    extract_mixed_content_from_json p (.str s) = .str s := by
  rw [extract_mixed_content_from_json]

theorem extract_null (p : ParseFn) :
    extract_mixed_content_from_json p .null = .null := by
  rw [extract_mixed_content_from_json]

theorem extract_arr (p : ParseFn) (l : List J) :
    extract_mixed_content_from_json p (.arr l) =
      .arr (l.map (extract_mixed_content_from_json p)) := by
  rw [extract_mixed_content_from_json]
  exact congrArg J.arr (List.attach_map_coe l (extract_mixed_content_from_json p))

theorem extract_obj (p : ParseFn) (d : List (String × J)) :
    extract_mixed_content_from_json p (.obj d) =
      clean_mixed_content_duplicates (.obj ((stepA p d).map
        (fun kv => (kv.1, extract_mixed_content_from_json p kv.2)))) := by
  rw [extract_mixed_content_from_json]
  exact congrArg (fun e => clean_mixed_content_duplicates (J.obj e))
    (List.attach_map_coe (stepA p d)
      (fun kv => (kv.1, extract_mixed_content_from_json p kv.2)))

/-!
## Dictionary lemmas used by the invariant and idempotence proofs
-/

theorem lookupJ_map_vals (f : J → J) (k : String) (d : List (String × J)) :
    lookupJ k (d.map (fun kv => (kv.1, f kv.2))) = (lookupJ k d).map f := by
  induction d with
  | nil => rfl
  | cons a d ih =>
    simp only [List.map_cons]
    unfold lookupJ
    by_cases hk : a.1 == k
    · simp [hk]
    · simp only [hk]
      simp only [Bool.false_eq_true, if_false]
      exact ih

theorem lookupJ_filter_keys (pk : String → Bool) (k : String) (d : List (String × J)) :
    lookupJ k (d.filter (fun kv => pk kv.1)) =
      if pk k then lookupJ k d else none := by
  induction d with
  | nil => simp [lookupJ]
  | cons a d ih =>
    by_cases hk : a.1 == k
    · have hak : a.1 = k := eq_of_beq hk
      by_cases hp : pk k
      · rw [List.filter_cons]
        simp only [hak, hp, if_true]
        unfold lookupJ
        simp [hk, hp]
      · rw [List.filter_cons]
        simp only [hak, hp]
        simp only [Bool.false_eq_true, decide_False, if_false]
        rw [ih]
        simp [hp]
    · rw [List.filter_cons]
      by_cases hp : pk a.1
      · simp only [hp, if_true]
        unfold lookupJ
        simp only [hk, Bool.false_eq_true, if_false]
        exact ih
      · simp only [hp, Bool.false_eq_true, decide_False, if_false]
        rw [ih]
        by_cases hpk : pk k
        · simp only [hpk, if_true]
          conv_rhs => rw [lookupJ]
          simp [hk]
        · simp [hpk]

theorem lookupJ_eraseKeyJ_self (k : String) (d : List (String × J)) :
    lookupJ k (eraseKeyJ k d) = none := by
  induction d with
  | nil => rfl
  | cons a d ih =>
    unfold eraseKeyJ
    by_cases hk : a.1 == k
    · simp only [hk, if_true]
      exact ih
    · simp only [hk, Bool.false_eq_true, if_false]
      unfold lookupJ
      simp only [hk, Bool.false_eq_true, if_false]
      exact ih

theorem mem_applyPop {kv : String × J} {d e : List (String × J)}
    (h : kv ∈ applyPop d e) : kv ∈ e := by
  unfold applyPop at h
  split at h
  · exact h
  · exact List.mem_filter.mp h |>.1

theorem applyPop_none {d : List (String × J)} (e : List (String × J))
    (h : lookupJ "content" d = none) : applyPop d e = e := by
  unfold applyPop
  rw [h]

theorem applyPop_some {d : List (String × J)} {c : J} (e : List (String × J))
    (h : lookupJ "content" d = some c) :
    applyPop d e = e.filter (fun kv => keepKey (elementTypes c) kv.1) := by
  unfold applyPop
  rw [h]

theorem keepKey_content (ets : List J) : keepKey ets "content" = true := by
  unfold keepKey
  rw [show ("content" == "") = false from rfl, show ("content" == "content") = true from rfl]
  simp

theorem keepKey_type (ets : List J) : keepKey ets "type" = true := by
  unfold keepKey
  rw [show ("type" == "") = false from rfl, show ("type" == "content") = false from rfl,
    show ("type" == "type") = true from rfl]
  simp

/-- Shape of a cleaned node: the entries of
`clean_mixed_content_duplicates (J.obj d)`. -/
def cleanObjEntries (d : List (String × J)) : List (String × J) :=
  applyPop d (d.map (fun kv => (kv.1, clean_mixed_content_duplicates kv.2)))

theorem clean_obj_entries (d : List (String × J)) :
    clean_mixed_content_duplicates (.obj d) = .obj (cleanObjEntries d) := clean_obj d

theorem mem_cleanObjEntries {kv : String × J} {d : List (String × J)}
    (h : kv ∈ cleanObjEntries d) :
    ∃ kv0 ∈ d, kv = (kv0.1, clean_mixed_content_duplicates kv0.2) := by
  have h1 : kv ∈ d.map (fun kv => (kv.1, clean_mixed_content_duplicates kv.2)) :=
    mem_applyPop h
  obtain ⟨kv0, hm, he⟩ := List.mem_map.mp h1
  exact ⟨kv0, hm, he.symm⟩

theorem lookupJ_kept_cleanObjEntries {k : String} (d : List (String × J))
    (hk : ∀ ets, keepKey ets k = true) :
    lookupJ k (cleanObjEntries d) =
      (lookupJ k d).map clean_mixed_content_duplicates := by
  unfold cleanObjEntries applyPop
  split
  · exact lookupJ_map_vals _ k d
  · rw [lookupJ_filter_keys]
    rw [hk _]
    simp only [if_true]
    exact lookupJ_map_vals _ k d

/-!
## The dedup pass is idempotent
-/

theorem clean_ctor_str {t : J} {s : String}
    (h : clean_mixed_content_duplicates t = .str s) : t = .str s := by
  cases t with
  | str s0 => rw [clean_str] at h; exact h
  | null => rw [clean_null] at h; exact absurd h (by simp)
  | arr l => rw [clean_arr] at h; exact absurd h (by simp)
  | obj d => rw [clean_obj] at h; exact absurd h (by simp)

theorem segType_clean (x : J) :
    segType (clean_mixed_content_duplicates x) =
      (segType x).map clean_mixed_content_duplicates := by
  cases x with
  | str s => rw [clean_str]; rfl
  | null => rw [clean_null]; rfl
  | arr l => rw [clean_arr]; rfl
  | obj d =>
    rw [clean_obj_entries]
    show lookupJ "type" (cleanObjEntries d) = _
    rw [lookupJ_kept_cleanObjEntries d keepKey_type]
    rfl

theorem strHit_clean (t : J) (k : String) :
    strHit (clean_mixed_content_duplicates t) k = strHit t k := by
  cases t with
  | str s => rw [clean_str]
  | null => rw [clean_null]
  | arr l => rw [clean_arr]; rfl
  | obj d => rw [clean_obj]; rfl

theorem memStrTypes_ets_clean (c : J) (k : String) :
    memStrTypes (elementTypes (clean_mixed_content_duplicates c)) k =
      memStrTypes (elementTypes c) k := by
  cases c with
  | str s => rw [clean_str]
  | null => rw [clean_null]
  | obj d => rw [clean_obj]; rfl
  | arr l =>
    rw [clean_arr]
    show memStrTypes ((l.map clean_mixed_content_duplicates).filterMap segType) k =
      memStrTypes (l.filterMap segType) k
    induction l with
    | nil => rfl
    | cons x l ih =>
      rw [List.map_cons, List.filterMap_cons, List.filterMap_cons, segType_clean]
      cases hx : segType x with
      | none => simp only [Option.map_none]; exact ih
      | some t =>
        simp only [Option.map_some']
        unfold memStrTypes
        simp only [List.any_cons]
        rw [strHit_clean]
        unfold memStrTypes at ih
        rw [ih]

theorem keepKey_clean (c : J) (k : String) :
    keepKey (elementTypes (clean_mixed_content_duplicates c)) k =
      keepKey (elementTypes c) k := by
  unfold keepKey
  rw [memStrTypes_ets_clean]

theorem cleanObjEntries_map_clean (d : List (String × J))
    (ih : ∀ kv ∈ d,
      clean_mixed_content_duplicates (clean_mixed_content_duplicates kv.2) =
        clean_mixed_content_duplicates kv.2) :
    (cleanObjEntries d).map (fun kv => (kv.1, clean_mixed_content_duplicates kv.2)) =
      cleanObjEntries d := by
  have h : ∀ kv ∈ cleanObjEntries d,
      (fun kv => (kv.1, clean_mixed_content_duplicates kv.2)) kv = id kv := by
    intro kv hkv
    obtain ⟨kv0, hm, he⟩ := mem_cleanObjEntries hkv
    simp only [he, id_eq]
    exact congrArg (fun v => (kv0.1, v)) (ih kv0 hm)
  rw [List.map_congr_left h, List.map_id]

theorem lookupJ_content_cleanObjEntries (d : List (String × J)) :
    lookupJ "content" (cleanObjEntries d) =
      (lookupJ "content" d).map clean_mixed_content_duplicates :=
  lookupJ_kept_cleanObjEntries d keepKey_content

theorem applyPop_cleanObjEntries_self (d : List (String × J)) :
    applyPop (cleanObjEntries d) (cleanObjEntries d) = cleanObjEntries d := by
  cases hc : lookupJ "content" d with
  | none =>
    apply applyPop_none
    rw [lookupJ_content_cleanObjEntries, hc]
    rfl
  | some c =>
    have hcu : lookupJ "content" (cleanObjEntries d) =
        some (clean_mixed_content_duplicates c) := by
      rw [lookupJ_content_cleanObjEntries, hc]
      rfl
    rw [applyPop_some _ hcu]
    apply List.filter_eq_self.mpr
    intro kv hkv
    rw [keepKey_clean]
    have hu : cleanObjEntries d =
        (d.map (fun kv => (kv.1, clean_mixed_content_duplicates kv.2))).filter
          (fun kv => keepKey (elementTypes c) kv.1) := by
      unfold cleanObjEntries
      exact applyPop_some _ hc
    rw [hu] at hkv
    exact (List.mem_filter.mp hkv).2

theorem cleanObjEntries_idem (d : List (String × J))
    (ih : ∀ kv ∈ d,
      clean_mixed_content_duplicates (clean_mixed_content_duplicates kv.2) =
        clean_mixed_content_duplicates kv.2) :
    cleanObjEntries (cleanObjEntries d) = cleanObjEntries d := by
  show applyPop (cleanObjEntries d) _ = _
  rw [cleanObjEntries_map_clean d ih]
  exact applyPop_cleanObjEntries_self d

/-- `clean_mixed_content_duplicates` is idempotent. -/
theorem clean_idem : ∀ x,
    clean_mixed_content_duplicates (clean_mixed_content_duplicates x) =
      clean_mixed_content_duplicates x := by
  intro x
  induction x using J.indOn with
  | hstr s => rw [clean_str, clean_str]
  | hnull => rw [clean_null, clean_null]
  | harr l ih =>
    rw [clean_arr, clean_arr, List.map_map]
    exact congrArg J.arr (List.map_congr_left (fun y hy => ih y hy))
  | hobj d ih =>
    rw [clean_obj_entries, clean_obj_entries]
    exact congrArg J.obj (cleanObjEntries_idem d ih)

/-!
## The reconciliation pass is idempotent
-/

/-- Measure induction on `sizeJ` (needed because the merge step introduces
values that are not subterms of the input). -/
theorem J.sizeInd {motive : J → Prop}
    (h : ∀ x, (∀ y, sizeJ y < sizeJ x → motive y) → motive x) : ∀ x, motive x := by
  have H : ∀ n x, sizeJ x ≤ n → motive x := by
    intro n
    induction n with
    | zero =>
      intro x hx
      have := sizeJ_pos x
      omega
    | succ n ih =>
      intro x hx
      refine h x (fun y hy => ih y ?_)
      omega
  exact fun x => H (sizeJ x) x le_rfl

/-- Every output of the reconciliation pass is a fixed point of the dedup
pass (the pass ends every dict by cleaning it). -/
theorem clean_extract (p : ParseFn) : ∀ x,
    clean_mixed_content_duplicates (extract_mixed_content_from_json p x) =
      extract_mixed_content_from_json p x := by
  intro x
  induction x using J.indOn with
  | hstr s => rw [extract_str, clean_str]
  | hnull => rw [extract_null, clean_null]
  | harr l ih =>
    rw [extract_arr, clean_arr, List.map_map]
    exact congrArg J.arr (List.map_congr_left (fun y hy => ih y hy))
  | hobj d ih =>
    rw [extract_obj]
    exact clean_idem _

theorem stepA_eq_of_none {p : ParseFn} {d : List (String × J)}
    (h : lookupJ "mixed-content-json" d = none) : stepA p d = d := by
  unfold stepA
  rw [h]

theorem stepA_eq_of_not_str {p : ParseFn} {d : List (String × J)} {v : J}
    (h : lookupJ "mixed-content-json" d = some v) (hv : ∀ s, v ≠ .str s) :
    stepA p d = d := by
  unfold stepA
  rw [h]
  cases v with
  | str s => exact absurd rfl (hv s)
  | null => rfl
  | arr l => rfl
  | obj d0 => rfl

theorem stepA_eq_of_run_none {p : ParseFn} {d : List (String × J)} {s : String}
    (h : lookupJ "mixed-content-json" d = some (.str s)) (hr : p.run s = none) :
    stepA p d = d := by
  unfold stepA
  rw [h]
  show (match p.run s with
    | some m => eraseKeyJ "mixed-content-json" (updateDict d m)
    | none => d) = d
  rw [hr]

/-- What the merge step leaves under the auxiliary key: either nothing, or
a string the parser rejects, or a non-string value. -/
theorem stepA_aux_spec (p : ParseFn) (d : List (String × J)) :
    lookupJ "mixed-content-json" (stepA p d) = none ∨
    (∃ s, lookupJ "mixed-content-json" (stepA p d) = some (.str s) ∧ p.run s = none) ∨
    (∃ v, lookupJ "mixed-content-json" (stepA p d) = some v ∧ ∀ s, v ≠ .str s) := by
  cases haux : lookupJ "mixed-content-json" d with
  | none =>
    rw [stepA_eq_of_none haux]
    exact Or.inl haux
  | some v =>
    cases v with
    | str s =>
      cases hrun : p.run s with
      | none =>
        rw [stepA_eq_of_run_none haux hrun]
        exact Or.inr (Or.inl ⟨s, haux, hrun⟩)
      | some m =>
        have : stepA p d = eraseKeyJ "mixed-content-json" (updateDict d m) := by
          unfold stepA
          rw [haux]
          show (match p.run s with
            | some m => eraseKeyJ "mixed-content-json" (updateDict d m)
            | none => d) = _
          rw [hrun]
        rw [this]
        exact Or.inl (lookupJ_eraseKeyJ_self _ _)
    | null =>
      rw [stepA_eq_of_not_str haux (by intro s h; exact absurd h (by simp))]
      exact Or.inr (Or.inr ⟨.null, haux, by intro s h; exact absurd h (by simp)⟩)
    | arr l =>
      rw [stepA_eq_of_not_str haux (by intro s h; exact absurd h (by simp))]
      exact Or.inr (Or.inr ⟨.arr l, haux, by intro s h; exact absurd h (by simp)⟩)
    | obj d0 =>
      rw [stepA_eq_of_not_str haux (by intro s h; exact absurd h (by simp))]
      exact Or.inr (Or.inr ⟨.obj d0, haux, by intro s h; exact absurd h (by simp)⟩)

theorem extract_not_str {p : ParseFn} {v : J} (hv : ∀ s, v ≠ .str s) :
    ∀ s, extract_mixed_content_from_json p v ≠ .str s := by
  intro s h
  cases v with
  | str s0 => exact absurd rfl (hv s0)
  | null => rw [extract_null] at h; exact absurd h (by simp)
  | arr l => rw [extract_arr] at h; exact absurd h (by simp)
  | obj d =>
    rw [extract_obj, clean_obj] at h
    exact absurd h (by simp)

theorem lookupJ_applyPop_cases (k : String) (d e : List (String × J)) :
    lookupJ k (applyPop d e) = lookupJ k e ∨ lookupJ k (applyPop d e) = none := by
  unfold applyPop
  split
  · exact Or.inl rfl
  · rw [lookupJ_filter_keys]
    split
    · exact Or.inl rfl
    · exact Or.inr rfl

/-- Applying the reconciliation pass to one of its own outputs changes
nothing. -/
theorem extract_idem (p : ParseFn) : ∀ x,
    extract_mixed_content_from_json p (extract_mixed_content_from_json p x) =
      extract_mixed_content_from_json p x := by
  refine J.sizeInd (fun x ih => ?_)
  match x with
  | .str s => rw [extract_str, extract_str]
  | .null => rw [extract_null, extract_null]
  | .arr l =>
    rw [extract_arr, extract_arr, List.map_map]
    refine congrArg J.arr (List.map_congr_left (fun y hy => ?_))
    exact ih y (sizeJ_lt_of_mem_arr hy)
  | .obj d =>
    have hmv : ((stepA p d).map
          (fun kv => (kv.1, extract_mixed_content_from_json p kv.2))).map
          (fun kv => (kv.1, clean_mixed_content_duplicates kv.2)) =
        (stepA p d).map (fun kv => (kv.1, extract_mixed_content_from_json p kv.2)) := by
      rw [List.map_map]
      refine List.map_congr_left (fun kv hkv => ?_)
      simp only [Function.comp]
      exact congrArg (fun v => (kv.1, v)) (clean_extract p kv.2)
    have hEobj : extract_mixed_content_from_json p (.obj d) =
        .obj (applyPop
          ((stepA p d).map (fun kv => (kv.1, extract_mixed_content_from_json p kv.2)))
          ((stepA p d).map (fun kv => (kv.1, extract_mixed_content_from_json p kv.2)))) := by
      rw [extract_obj, clean_obj_entries]
      unfold cleanObjEntries
      rw [hmv]
    set d2 := (stepA p d).map (fun kv => (kv.1, extract_mixed_content_from_json p kv.2))
      with hd2
    have haux2 : lookupJ "mixed-content-json" d2 =
        (lookupJ "mixed-content-json" (stepA p d)).map
          (extract_mixed_content_from_json p) := by
      rw [hd2]
      exact lookupJ_map_vals _ _ _
    have hstep : stepA p (applyPop d2 d2) = applyPop d2 d2 := by
      rcases lookupJ_applyPop_cases "mixed-content-json" d2 d2 with hr | hr
      · rcases stepA_aux_spec p d with hs | hs | hs
        · refine stepA_eq_of_none ?_
          rw [hr, haux2, hs]
          rfl
        · obtain ⟨s, hl, hr0⟩ := hs
          refine stepA_eq_of_run_none ?_ hr0
          rw [hr, haux2, hl]
          rw [show (some (J.str s)).map (extract_mixed_content_from_json p) =
            some (extract_mixed_content_from_json p (J.str s)) from rfl]
          rw [extract_str]
        · obtain ⟨v, hl, hv⟩ := hs
          refine stepA_eq_of_not_str ?_ (@extract_not_str p v hv)
          rw [hr, haux2, hl]
          rfl
      · exact stepA_eq_of_none hr
    have hmapr : (applyPop d2 d2).map
        (fun kv => (kv.1, extract_mixed_content_from_json p kv.2)) = applyPop d2 d2 := by
      have h : ∀ kv ∈ applyPop d2 d2,
          (fun kv => (kv.1, extract_mixed_content_from_json p kv.2)) kv = id kv := by
        intro kv hkv
        have hkv2 : kv ∈ d2 := mem_applyPop hkv
        rw [hd2] at hkv2
        obtain ⟨kv0, hm, he⟩ := List.mem_map.mp hkv2
        rw [← he]
        simp only [id_eq]
        refine congrArg (fun v => (kv0.1, v)) ?_
        exact ih kv0.2 (sizeJ_lt_of_mem_stepA hm)
      rw [List.map_congr_left h, List.map_id]
    calc extract_mixed_content_from_json p (extract_mixed_content_from_json p (.obj d))
        = extract_mixed_content_from_json p (.obj (applyPop d2 d2)) := by rw [hEobj]
      _ = clean_mixed_content_duplicates (.obj ((stepA p (applyPop d2 d2)).map
            (fun kv => (kv.1, extract_mixed_content_from_json p kv.2)))) :=
          extract_obj p _
      _ = clean_mixed_content_duplicates (.obj ((applyPop d2 d2).map
            (fun kv => (kv.1, extract_mixed_content_from_json p kv.2)))) := by rw [hstep]
      _ = clean_mixed_content_duplicates (.obj (applyPop d2 d2)) := by rw [hmapr]
      _ = clean_mixed_content_duplicates (extract_mixed_content_from_json p (.obj d)) := by
          rw [hEobj]
      _ = extract_mixed_content_from_json p (.obj d) := clean_extract p _

/-!
## The no-duplication invariant
-/

/-- `SubJ y x`: the value `y` occurs somewhere inside the tree `x`
(reflexively, through object fields and array items). -/
inductive SubJ : J → J → Prop where
  | refl (x : J) : SubJ x x
  | inObj {y v : J} {k : String} {d : List (String × J)} :
      (k, v) ∈ d → SubJ y v → SubJ y (.obj d)
  | inArr {y x : J} {l : List J} : x ∈ l → SubJ y x → SubJ y (.arr l)

/-- The no-duplication property of a single node: whenever the node has a
`content` field, none of its other keys (outside `@`-prefixed attributes
and the `content`/`type` keys themselves) occurs among the segment types
of that `content` value. -/
def nodeOk (d : List (String × J)) : Prop :=
  ∀ c, lookupJ "content" d = some c →
    ∀ kv ∈ d, kv.1 ≠ "content" → kv.1 ≠ "type" → isAttrKey kv.1 = false →
      memStrTypes (elementTypes c) kv.1 = false

theorem nodeOk_cleanObjEntries (d0 : List (String × J)) :
    nodeOk (cleanObjEntries d0) := by
  intro c hc kv hkv h1 h2 h3
  cases hcd : lookupJ "content" d0 with
  | none =>
    rw [lookupJ_content_cleanObjEntries, hcd] at hc
    exact absurd hc (by simp)
  | some c0 =>
    rw [lookupJ_content_cleanObjEntries, hcd] at hc
    have hcc : c = clean_mixed_content_duplicates c0 := by
      have := hc.symm
      simpa using this
    have hu : cleanObjEntries d0 =
        (d0.map (fun kv => (kv.1, clean_mixed_content_duplicates kv.2))).filter
          (fun kv => keepKey (elementTypes c0) kv.1) := by
      unfold cleanObjEntries
      exact applyPop_some _ hcd
    rw [hu] at hkv
    have hkeep : keepKey (elementTypes c0) kv.1 = true := (List.mem_filter.mp hkv).2
    unfold keepKey at hkeep
    rw [beq_eq_false_iff_ne.mpr h1, beq_eq_false_iff_ne.mpr h2, h3] at hkeep
    simp only [Bool.or_false, Bool.false_or, Bool.and_eq_true, Bool.not_eq_true'] at hkeep
    rw [hcc, memStrTypes_ets_clean]
    exact hkeep.2

/-- Every object node inside an output of the dedup pass satisfies the
no-duplication property. -/
theorem clean_nodeOk : ∀ x, ∀ d : List (String × J),
    SubJ (.obj d) (clean_mixed_content_duplicates x) → nodeOk d := by
  intro x
  induction x using J.indOn with
  | hstr s =>
    intro d h
    rw [clean_str] at h
    cases h
  | hnull =>
    intro d h
    rw [clean_null] at h
    cases h
  | harr l ih =>
    intro d h
    rw [clean_arr] at h
    cases h with
    | inArr hm hsub =>
      obtain ⟨y, hy, he⟩ := List.mem_map.mp hm
      exact ih y hy d (he ▸ hsub)
  | hobj d0 ih =>
    intro d h
    rw [clean_obj_entries] at h
    cases h with
    | refl => exact nodeOk_cleanObjEntries d0
    | inObj hm hsub =>
      obtain ⟨kv0, hm0, he⟩ := mem_cleanObjEntries hm
      have : SubJ (.obj d) (clean_mixed_content_duplicates kv0.2) := by
        have := congrArg Prod.snd he
        simp only at this
        exact this ▸ hsub
      exact ih kv0 hm0 d this

/-- Every object node inside an output of the reconciliation pass
satisfies the no-duplication property. -/
theorem extract_nodeOk (p : ParseFn) : ∀ x, ∀ d : List (String × J),
    SubJ (.obj d) (extract_mixed_content_from_json p x) → nodeOk d := by
  intro x
  induction x using J.indOn with
  | hstr s =>
    intro d h
    rw [extract_str] at h
    cases h
  | hnull =>
    intro d h
    rw [extract_null] at h
    cases h
  | harr l ih =>
    intro d h
    rw [extract_arr] at h
    cases h with
    | inArr hm hsub =>
      obtain ⟨y, hy, he⟩ := List.mem_map.mp hm
      exact ih y hy d (he ▸ hsub)
  | hobj d0 ih =>
    intro d h
    rw [extract_obj] at h
    exact clean_nodeOk _ d h

/-!
## XML elements and the mixed-content serializer
(convert_tei_to_json.py lines 37–136, import_tei_to_postgres.py 44–143)

`lxml` elements carry tag and attribute names in Clark notation
(`\x7buri\x7dlocal`), an optional `.text` (character data before the first
child), an optional `.tail` (character data after the element's close, up
to the next sibling), and an ordered child list.
-/

inductive XElem where
  | mk (tag : String) (attrib : List (String × String)) (text : Option String)
      (tail : Option String) (children : List XElem)

def XElem.tag : XElem → String
  | .mk t _ _ _ _ => t

def XElem.attrib : XElem → List (String × String)
  | .mk _ a _ _ _ => a

def XElem.text : XElem → Option String
  | .mk _ _ t _ _ => t

def XElem.tail : XElem → Option String
  | .mk _ _ _ t _ => t

def XElem.children : XElem → List XElem
  | .mk _ _ _ _ c => c

/-- Python `str.strip()` on the character list (ASCII whitespace; the
documents at hand contain no exotic Unicode space characters). -/
def stripChars (l : List Char) : List Char :=
  ((l.dropWhile Char.isWhitespace).reverse.dropWhile Char.isWhitespace).reverse

/-- Truthiness of Python `x and x.strip()` for an optional string `x`:
true iff the text exists and is non-blank. -/
def truthyText : Option String → Bool
  | none => false
  | some s => !(stripChars s.data).isEmpty

/-- Python `s.replace(pat, rep)` on character lists: replace every
non-overlapping occurrence left to right.  Structural in the fuel, which
callers set to the length of `s` (the list shrinks by at least one
character per step, so that fuel always suffices for non-empty `pat`). -/
def replChars (fuel : Nat) (s pat rep : List Char) : List Char :=
  match fuel, s with
  | _, [] => []
  | 0, s => s
  | fuel + 1, c :: r =>
    if pat.isPrefixOf (c :: r) then rep ++ replChars fuel (r.drop (pat.length - 1)) pat rep
    else c :: replChars fuel r pat rep

/-- Python `s.replace(pat, rep)`.  The converter only ever replaces
non-empty patterns, so the empty-pattern case (Python would intersperse
`rep`) is mapped to the identity. -/
def pyReplace (s pat rep : String) : String :=
  if pat.data.isEmpty then s
  else String.mk (replChars s.data.length s.data pat.data rep.data)

/-- `key.replace('\x7bhttp://www.tei-c.org/ns/1.0\x7d', '')`: strip the TEI
namespace from a Clark-notation name. -/
def stripNS (s : String) : String :=
  pyReplace s "\x7bhttp://www.tei-c.org/ns/1.0\x7d" ""

/-- `TEIConverter.serialize_mixed_content` /
`TEIImporter.serialize_mixed_content`.  Attributes of the element itself
land under `@`-prefixed keys (TEI namespace stripped); with mixed content
present the ordered `content` list is built (leading text if non-blank
verbatim, then per child its element segment followed by its non-blank
tail verbatim), otherwise a plain `value` entry.  Dict assignments are
modelled by `setKeyJ`/`updateDict` (overwrite keeps position, new keys
append). -/
def serialize_mixed_content (e : XElem) : List (String × J) :=
  let result0 := updateDict []
    (e.attrib.map (fun kv => ("@" ++ stripNS kv.1, J.str kv.2)))
  let hasMixed := truthyText e.text || !e.children.isEmpty
  if hasMixed then
    let lead := if truthyText e.text then
        [J.obj [("type", J.str "text"), ("value", J.str (e.text.getD ""))]]
      else []
    let childSegs := e.children.flatMap (fun c =>
      J.obj (updateDict
          [("type", J.str (stripNS c.tag)), ("value", J.str (c.text.getD ""))]
          (c.attrib.map (fun kv => (stripNS kv.1, J.str kv.2)))) ::
        (if truthyText c.tail then
            [J.obj [("type", J.str "text"), ("value", J.str (c.tail.getD ""))]]
          else []))
    setKeyJ "content" (J.arr (lead ++ childSegs)) result0
  else
    setKeyJ "value" (J.str (e.text.getD "")) result0

/-- The eligibility test of `handle_mixed_content_elements`:
`(has_text and has_children) or has_tail`. -/
def isEligible (e : XElem) : Bool :=
  (truthyText e.text && !e.children.isEmpty) ||
    e.children.any (fun c => truthyText c.tail)

/-- Content Segment of the specification (§3 Data Model): a discriminated
value, either a text span or an element span. -/
inductive Seg where
  | textSeg (value : String)
  | elemSeg (tag : String) (value : String) (attrs : List (String × String))

/-- Rendering of a Content Segment as a JSON object (`type`/`value` fields
plus, for element segments, the attribute mapping merged in with dict
semantics). -/
def segToJson : Seg → J
  | .textSeg v => J.obj [("type", J.str "text"), ("value", J.str v)]
  | .elemSeg t v attrs => J.obj (updateDict [("type", J.str t), ("value", J.str v)]
      (attrs.map (fun kv => (kv.1, J.str kv.2))))

/-- Modelled from the spec (§4.2 algorithm, §8 order preservation): the
ordered segment sequence of an eligible element — leading text first when
non-blank (whitespace preserved verbatim), then for each child in document
order an element segment (namespace-stripped tag, the child's own leading
text or empty, namespace-stripped attributes), immediately followed by a
text segment for the child's tail when that is non-blank. -/
def specOrderedSegments (e : XElem) : List Seg :=
  (if truthyText e.text then [Seg.textSeg (e.text.getD "")] else []) ++
  e.children.flatMap (fun c =>
    Seg.elemSeg (stripNS c.tag) (c.text.getD "")
        (c.attrib.map (fun kv => (stripNS kv.1, kv.2))) ::
      (if truthyText c.tail then [Seg.textSeg (c.tail.getD "")] else []))

/-!
## Serializer lemmas (order preservation and fallback unreachability)
-/

theorem isAttrKey_at_prepend (x : String) : isAttrKey ("@" ++ x) = true := by
  unfold isAttrKey
  rw [String.data_append]
  rfl

theorem at_prepend_ne {x k : String} (hk : isAttrKey k = false) : ("@" ++ x) ≠ k := by
  intro h
  have h2 := isAttrKey_at_prepend x
  rw [h] at h2
  rw [h2] at hk
  simp at hk

theorem mem_keys_setKeyJ {kv : String × J} {k : String} {v : J}
    {d : List (String × J)} (h : kv ∈ setKeyJ k v d) :
    (∃ w, (kv.1, w) ∈ d) ∨ kv.1 = k := by
  unfold setKeyJ at h
  by_cases hc : hasKey k d
  · simp only [hc, if_true] at h
    obtain ⟨kv0, hm, he⟩ := List.mem_map.mp h
    by_cases hk : kv0.1 == k
    · simp only [hk, if_true] at he
      right
      rw [← he]
      exact eq_of_beq hk
    · simp only [hk, Bool.false_eq_true, if_false] at he
      left
      exact ⟨kv.2, he ▸ hm⟩
  · simp only [hc, if_false] at h
    rcases List.mem_append.mp h with h1 | h1
    · exact Or.inl ⟨kv.2, h1⟩
    · simp only [List.mem_singleton] at h1
      right
      rw [h1]

theorem mem_keys_updateDict {kv : String × J} {d m : List (String × J)}
    (h : kv ∈ updateDict d m) :
    (∃ w, (kv.1, w) ∈ d) ∨ ∃ kv0 ∈ m, kv.1 = kv0.1 := by
  induction m generalizing d with
  | nil => exact Or.inl ⟨kv.2, h⟩
  | cons a m ih =>
    unfold updateDict at h
    simp only [List.foldl_cons] at h
    rcases ih h with h1 | h1
    · obtain ⟨w, hw⟩ := h1
      rcases mem_keys_setKeyJ hw with h2 | h2
      · exact Or.inl h2
      · exact Or.inr ⟨a, List.mem_cons_self a m, h2⟩
    · obtain ⟨kv0, hm, he⟩ := h1
      exact Or.inr ⟨kv0, List.mem_cons_of_mem a hm, he⟩

/-- The dict of `@`-prefixed attribute entries built at the head of
`serialize_mixed_content` contains no key `k` that is not `@`-prefixed. -/
theorem hasKey_serialize_attrs {k : String} (hk : isAttrKey k = false)
    (al : List (String × String)) :
    hasKey k (updateDict [] (al.map (fun kv => ("@" ++ stripNS kv.1, J.str kv.2)))) =
      false := by
  by_contra hc
  rw [Bool.not_eq_false] at hc
  obtain ⟨kv, hm, hbeq⟩ := List.any_eq_true.mp hc
  have hkk : kv.1 = k := eq_of_beq hbeq
  rcases mem_keys_updateDict hm with h1 | h1
  · obtain ⟨w, hw⟩ := h1
    simp at hw
  · obtain ⟨kv0, hm0, he⟩ := h1
    obtain ⟨a, _, ha⟩ := List.mem_map.mp hm0
    have : kv0.1 = "@" ++ stripNS a.1 := by rw [← ha]
    exact at_prepend_ne hk (by rw [← this, ← he, hkk])

theorem setKeyJ_fresh {k : String} {v : J} {d : List (String × J)}
    (h : hasKey k d = false) : setKeyJ k v d = d ++ [(k, v)] := by
  unfold setKeyJ
  rw [h]
  simp

theorem lookupJ_eq_none {k : String} {d : List (String × J)}
    (h : hasKey k d = false) : lookupJ k d = none := by
  induction d with
  | nil => rfl
  | cons a d ih =>
    unfold hasKey at h
    simp only [List.any_cons, Bool.or_eq_false_iff] at h
    unfold lookupJ
    rw [h.1]
    simp only [Bool.false_eq_true, if_false]
    exact ih h.2

theorem lookupJ_append_fresh {k : String} {v : J} {d : List (String × J)}
    (h : hasKey k d = false) : lookupJ k (d ++ [(k, v)]) = some v := by
  induction d with
  | nil => simp [lookupJ]
  | cons a d ih =>
    unfold hasKey at h
    simp only [List.any_cons, Bool.or_eq_false_iff] at h
    rw [List.cons_append]
    unfold lookupJ
    rw [h.1]
    simp only [Bool.false_eq_true, if_false]
    exact ih h.2

theorem isEligible_hasMixed {e : XElem} (he : isEligible e = true) :
    (truthyText e.text || !e.children.isEmpty) = true := by
  unfold isEligible at he
  rcases Bool.or_eq_true_iff.mp he with h | h
  · rw [(Bool.and_eq_true _ _).mp h |>.2]
    simp
  · obtain ⟨c, hc, _⟩ := List.any_eq_true.mp h
    have : e.children.isEmpty = false := by
      cases hch : e.children with
      | nil => rw [hch] at hc; exact absurd hc (by simp)
      | cons a l => rfl
    rw [this]
    simp

/-- The `content` list built by `serialize_mixed_content` in its
mixed-content branch. -/
def serializeContentList (e : XElem) : List J :=
  (if truthyText e.text then
      [J.obj [("type", J.str "text"), ("value", J.str (e.text.getD ""))]]
    else []) ++
  e.children.flatMap (fun c =>
    J.obj (updateDict
        [("type", J.str (stripNS c.tag)), ("value", J.str (c.text.getD ""))]
        (c.attrib.map (fun kv => (stripNS kv.1, J.str kv.2)))) ::
      (if truthyText c.tail then
          [J.obj [("type", J.str "text"), ("value", J.str (c.tail.getD ""))]]
        else []))

theorem serialize_mixed_content_eq (e : XElem)
    (hm : (truthyText e.text || !e.children.isEmpty) = true) :
    serialize_mixed_content e =
      updateDict [] (e.attrib.map (fun kv => ("@" ++ stripNS kv.1, J.str kv.2))) ++
        [("content", J.arr (serializeContentList e))] := by
  unfold serialize_mixed_content serializeContentList
  rw [hm]
  simp only [if_true]
  exact setKeyJ_fresh
    (hasKey_serialize_attrs (show isAttrKey "content" = false from rfl) _)

theorem serialize_lookup_content (e : XElem)
    (hm : (truthyText e.text || !e.children.isEmpty) = true) :
    lookupJ "content" (serialize_mixed_content e) =
      some (J.arr (serializeContentList e)) := by
  rw [serialize_mixed_content_eq e hm]
  exact lookupJ_append_fresh
    (hasKey_serialize_attrs (show isAttrKey "content" = false from rfl) _)

theorem serialize_lookup_value (e : XElem)
    (hm : (truthyText e.text || !e.children.isEmpty) = true) :
    lookupJ "value" (serialize_mixed_content e) = none := by
  rw [serialize_mixed_content_eq e hm]
  apply lookupJ_eq_none
  unfold hasKey
  rw [List.any_append]
  have h1 : hasKey "value"
      (updateDict [] (e.attrib.map (fun kv => ("@" ++ stripNS kv.1, J.str kv.2)))) =
      false := hasKey_serialize_attrs (show isAttrKey "value" = false from rfl) _
  unfold hasKey at h1
  rw [h1]
  simp

theorem serializeContentList_spec (e : XElem) :
    serializeContentList e = (specOrderedSegments e).map segToJson := by
  unfold serializeContentList specOrderedSegments
  rw [List.map_append, List.map_flatMap]
  congr 1
  · cases h : truthyText e.text <;> simp [segToJson]
  · refine congrArg e.children.flatMap (funext (fun c => ?_))
    rw [List.map_cons]
    congr 1
    · simp only [segToJson, List.map_map]
      rfl
    · cases h : truthyText c.tail <;> simp [segToJson]

/-!
## The marking pass, the XML string side and the generic converter
(convert_tei_to_json.py lines 103–136 and 200–227,
import_tei_to_postgres.py lines 110–143 and 207–234)
-/

def teiClark (t : String) : String := "\x7bhttp://www.tei-c.org/ns/1.0\x7d" ++ t

/-- The eligible-tag set of `handle_mixed_content_elements` (the seven
`//tei:` XPaths). -/
def mixedContentTags : List String :=
  ["note", "def", "quote", "cit", "bibl", "etym", "sense"]

/-- The `force_list` set passed to `xmltodict.parse` (identical in both
files, up to a commented-out `etym` entry in the converter). -/
def forceListTags : List String :=
  ["form", "sense", "cit", "usg", "ref", "bibl", "placeName", "note"]

/-- `json.dumps` string escaping (quote and backslash; the remaining
escapes concern control characters which do not occur here, and
`ensure_ascii=False` leaves other characters alone). -/
def jsonEscape (s : String) : String :=
  String.mk (s.data.flatMap (fun c => if c == '"' || c == '\\' then ['\\', c] else [c]))

/-- `json.dumps(v, ensure_ascii=False)` with the default separators. -/
def jDump : J → String
  | .str s => "\"" ++ jsonEscape s ++ "\""
  | .null => "null"
  | .arr l => "[" ++ String.intercalate ", " (l.attach.map (fun x => jDump x.1)) ++ "]"
  | .obj d => "\x7b" ++ String.intercalate ", "
      (d.attach.map (fun kv => "\"" ++ jsonEscape kv.1.1 ++ "\": " ++ jDump kv.1.2)) ++
      "\x7d"
decreasing_by
  · have h := List.sizeOf_lt_of_mem x.2
    simp only [J.arr.sizeOf_spec]
    omega
  · have h := List.sizeOf_lt_of_mem kv.2
    obtain ⟨⟨a, b⟩, hm⟩ := kv
    simp only [Prod.mk.sizeOf_spec] at h
    simp only [J.obj.sizeOf_spec]
    omega

/-- Python `elem.set(k, v)`: overwrite the attribute in place or append it. -/
def XElem.setAttr (e : XElem) (k v : String) : XElem :=
  match e with
  | .mk tag al text tail ch =>
    .mk tag
      (if al.any (fun kv => kv.1 == k) then
          al.map (fun kv => if kv.1 == k then (kv.1, v) else kv)
        else al ++ [(k, v)])
      text tail ch

/-- One XPath pass of `handle_mixed_content_elements` for the tag `t`: in
document (pre-)order, annotate every eligible element with tag
`tei:t` by setting its `mixed-content-json` attribute to the
`json.dumps` of its serialized mixed content, computed from the element's
current state (descendants are rewritten after the element itself, which
matches the document-order iteration over the XPath result in the code). -/
def handle_pass (t : String) : XElem → XElem
  | .mk tag al text tail ch =>
    let marked := if tag == teiClark t && isEligible (.mk tag al text tail ch) then
        (XElem.mk tag al text tail ch).setAttr "mixed-content-json"
          (jDump (J.obj (serialize_mixed_content (.mk tag al text tail ch))))
      else .mk tag al text tail ch
    .mk marked.tag marked.attrib marked.text marked.tail
      (ch.attach.map (fun c => handle_pass t c.1))
decreasing_by
  have h := List.sizeOf_lt_of_mem c.2
  simp only [XElem.mk.sizeOf_spec]
  omega

/-- `TEIConverter.handle_mixed_content_elements` /
`TEIImporter.handle_mixed_content_elements`: the seven tag passes run in
the order of the XPath list, each over the whole (already partially
annotated) tree. -/
def handle_mixed_content_elements (root : XElem) : XElem :=
  mixedContentTags.foldl (fun acc t => handle_pass t acc) root

/-- The serialized form of a Clark-notation name, as `etree.tostring`
writes it for these documents: the TEI namespace is the default namespace
(local name only) and the `xml` prefix is predeclared. -/
def serClarkName (s : String) : String :=
  pyReplace (pyReplace s "\x7bhttp://www.tei-c.org/ns/1.0\x7d" "")
    "\x7bhttp://www.w3.org/XML/1998/namespace\x7d" "xml:"

/-- `etree.tostring(tree, encoding='unicode')` at tree level: tags with
attributes, text, children each followed by its tail.  Namespace
declarations, attribute-value escaping and the whitespace inserted by
`pretty_print=True` are elided — none of them affect the presence of an
attribute in the output. -/
def xmlToString : XElem → String
  | .mk tag al text _ ch =>
    "<" ++ serClarkName tag ++
      String.join (al.map (fun kv => " " ++ serClarkName kv.1 ++ "=\"" ++ kv.2 ++ "\"")) ++
      ">" ++ (text.getD "") ++
      String.join (ch.attach.map (fun c => xmlToString c.1 ++ (c.1.tail.getD ""))) ++
      "</" ++ serClarkName tag ++ ">"
decreasing_by
  have h := List.sizeOf_lt_of_mem c.2
  simp only [XElem.mk.sizeOf_spec]
  omega

/-- The two textual renames applied to the serialized document before
`xmltodict.parse`:
`xml_str.replace('xml:id', 'xmlId').replace('xml:lang', 'xmlLang')`. -/
def renameTxt (s : String) : String :=
  pyReplace (pyReplace s "xml:id" "xmlId") "xml:lang" "xmlLang"

/-- Does `pat` occur as a substring of `s`? -/
def containsSub (pat : List Char) : List Char → Bool
  | [] => pat.isEmpty
  | c :: r => pat.isPrefixOf (c :: r) || containsSub pat r

def occursStr (pat s : String) : Bool := containsSub pat.data s.data

/-- The `tei_xml` output field of `parse_tei_file` (both files, lines
258–262 resp. 265–269): `tei_to_json(tree)` first runs
`handle_mixed_content_elements` on the same mutable tree, and
`etree.tostring(tree, ..., pretty_print=True)` is taken only afterwards,
so the serialized string reflects the annotated tree. -/
def tei_xml_field (root : XElem) : String :=
  xmlToString (handle_mixed_content_elements root)

/-- A name as it reaches `xmltodict`: serialized and then subjected to the
two textual renames. -/
def serName (s : String) : String := renameTxt (serClarkName s)

/-- `xmltodict`'s `push_data` (attr_prefix and cdata_key are irrelevant to
it): append to an existing list, listify an existing scalar, wrap new
`force_list` keys in a singleton list, otherwise store plainly. -/
def pushData (fl : List String) (item : List (String × J)) (key : String) (v : J) :
    List (String × J) :=
  match lookupJ key item with
  | some (J.arr l) => setKeyJ key (J.arr (l ++ [v])) item
  | some old => setKeyJ key (J.arr [old, v]) item
  | none => if fl.contains key then item ++ [(key, J.arr [v])] else item ++ [(key, v)]

/-- The character data `xmltodict` accumulates for an element: its text
and every child's tail (each chunk renamed, since the renames act on the
serialized string), concatenated and stripped
(`strip_whitespace=True`). -/
def xmlCData (e : XElem) : String :=
  String.mk (stripChars (renameTxt (e.text.getD "") ++
    String.join (e.children.map (fun c => renameTxt (c.tail.getD "")))).data)

/-- The composite `etree.tostring` → textual renames → `xmltodict.parse`
(with `attr_prefix=""`, `cdata_key=""` and the `force_list` set) applied
to one element, modelled at tree level (serialization escaping and
`xmltodict`'s unescaping cancel).  Attributes first (bare serialized
names, prefixed with the empty `attr_prefix`), then the children pushed in
document order via `push_data`, then the character data under the empty
`cdata_key`; an element with no attributes and no children collapses to
its character data (or `None` when that is empty). -/
def xmltodict_convert : XElem → J
  | .mk tag al text tail ch =>
    let attrs := al.map (fun kv => (serName kv.1, J.str (renameTxt kv.2)))
    let item := (ch.attach.map (fun c => (serName c.1.tag, xmltodict_convert c.1))).foldl
      (fun acc kv => pushData forceListTags acc kv.1 kv.2) attrs
    let cd := xmlCData (.mk tag al text tail ch)
    if item.isEmpty then (if cd == "" then J.null else J.str cd)
    else if cd == "" then J.obj item
    else J.obj (pushData forceListTags item "" (J.str cd))
decreasing_by
  have h := List.sizeOf_lt_of_mem c.2
  simp only [XElem.mk.sizeOf_spec]
  omega

theorem jDump_str (s : String) : jDump (.str s) = "\"" ++ jsonEscape s ++ "\"" := by
  rw [jDump]

theorem jDump_null : jDump .null = "null" := by rw [jDump]

theorem jDump_arr (l : List J) :
    jDump (.arr l) = "[" ++ String.intercalate ", " (l.map jDump) ++ "]" := by
  rw [jDump]
  rw [List.attach_map_coe]

theorem jDump_obj (d : List (String × J)) :
    jDump (.obj d) = "\x7b" ++ String.intercalate ", "
      (d.map (fun kv => "\"" ++ jsonEscape kv.1 ++ "\": " ++ jDump kv.2)) ++ "\x7d" := by
  rw [jDump]
  exact congrArg (fun z => "\x7b" ++ String.intercalate ", " z ++ "\x7d")
    (List.attach_map_coe d (fun kv => "\"" ++ jsonEscape kv.1 ++ "\": " ++ jDump kv.2))

theorem xmlToString_eq (tag : String) (al : List (String × String))
    (text tail : Option String) (ch : List XElem) :
    xmlToString (.mk tag al text tail ch) =
      "<" ++ serClarkName tag ++
        String.join (al.map (fun kv => " " ++ serClarkName kv.1 ++ "=\"" ++ kv.2 ++ "\"")) ++
        ">" ++ (text.getD "") ++
        String.join (ch.map (fun c => xmlToString c ++ (c.tail.getD ""))) ++
        "</" ++ serClarkName tag ++ ">" := by
  rw [xmlToString]
  refine congrArg (fun z =>
    "<" ++ serClarkName tag ++
      String.join (al.map (fun kv => " " ++ serClarkName kv.1 ++ "=\"" ++ kv.2 ++ "\"")) ++
      ">" ++ (text.getD "") ++ String.join z ++ "</" ++ serClarkName tag ++ ">") ?_
  exact List.attach_map_coe ch (fun c => xmlToString c ++ (c.tail.getD ""))

theorem handle_pass_eq (t tag : String) (al : List (String × String))
    (text tail : Option String) (ch : List XElem) :
    handle_pass t (.mk tag al text tail ch) =
      .mk tag
        (if tag == teiClark t && isEligible (.mk tag al text tail ch) then
            (if al.any (fun kv => kv.1 == "mixed-content-json") then
                al.map (fun kv => if kv.1 == "mixed-content-json" then
                  (kv.1, jDump (J.obj (serialize_mixed_content (.mk tag al text tail ch))))
                  else kv)
              else al ++ [("mixed-content-json",
                jDump (J.obj (serialize_mixed_content (.mk tag al text tail ch))))])
          else al)
        text tail (ch.map (handle_pass t)) := by
  rw [handle_pass]
  cases hcond : (tag == teiClark t && isEligible (.mk tag al text tail ch)) with
  | false =>
    simp only [hcond, Bool.false_eq_true, if_false]
    show XElem.mk tag al text tail (ch.attach.map (fun c => handle_pass t c.1)) = _
    exact congrArg (XElem.mk tag al text tail)
      (List.attach_map_coe ch (handle_pass t))
  | true =>
    simp only [hcond, if_true]
    show XElem.mk tag
      (if al.any (fun kv => kv.1 == "mixed-content-json") then
          al.map (fun kv => if kv.1 == "mixed-content-json" then
            (kv.1, jDump (J.obj (serialize_mixed_content (.mk tag al text tail ch))))
            else kv)
        else al ++ [("mixed-content-json",
          jDump (J.obj (serialize_mixed_content (.mk tag al text tail ch))))])
      text tail (ch.attach.map (fun c => handle_pass t c.1)) = _
    exact congrArg (XElem.mk tag _ text tail)
      (List.attach_map_coe ch (handle_pass t))

/-- Final assembly step of the `xmltodict` element conversion. -/
def xmltodictAssemble (item : List (String × J)) (cd : String) : J :=
  if item.isEmpty then (if cd == "" then J.null else J.str cd)
  else if cd == "" then J.obj item
  else J.obj (pushData forceListTags item "" (J.str cd))

theorem xmltodict_convert_eq (tag : String) (al : List (String × String))
    (text tail : Option String) (ch : List XElem) :
    xmltodict_convert (.mk tag al text tail ch) =
      xmltodictAssemble
        ((ch.map (fun c => (serName c.tag, xmltodict_convert c))).foldl
          (fun acc kv => pushData forceListTags acc kv.1 kv.2)
          (al.map (fun kv => (serName kv.1, J.str (renameTxt kv.2)))))
        (xmlCData (.mk tag al text tail ch)) := by
  rw [xmltodict_convert]
  rw [List.attach_map_coe ch (fun c => (serName c.tag, xmltodict_convert c))]
  rfl

/-!
## Frame lemmas for the textual renames and for `push_data`
-/

theorem replChars_of_not_contains {pat rep : List Char} :
    ∀ (fuel : Nat) (s : List Char), containsSub pat s = false →
      replChars fuel s pat rep = s := by
  intro fuel
  induction fuel with
  | zero =>
    intro s _
    cases s <;> rfl
  | succ n ih =>
    intro s h
    cases s with
    | nil => rfl
    | cons c r =>
      unfold containsSub at h
      rw [Bool.or_eq_false_iff] at h
      unfold replChars
      rw [h.1]
      simp only [Bool.false_eq_true, if_false]
      exact congrArg (c :: ·) (ih r h.2)

theorem pyReplace_of_not_contains {s pat rep : String}
    (h : occursStr pat s = false) : pyReplace s pat rep = s := by
  unfold pyReplace
  split
  · rfl
  · unfold occursStr at h
    rw [replChars_of_not_contains _ _ h]

theorem lookupJ_some_hasKey {k : String} {v : J} {d : List (String × J)}
    (h : lookupJ k d = some v) : hasKey k d = true := by
  induction d with
  | nil => simp [lookupJ] at h
  | cons a d ih =>
    unfold lookupJ at h
    unfold hasKey
    rw [List.any_cons]
    by_cases hk : a.1 == k
    · rw [hk]
      simp
    · simp only [hk, Bool.false_eq_true, if_false] at h
      rw [Bool.of_not_eq_true hk]
      simp only [Bool.false_or]
      exact ih h

theorem lookupJ_append_left_none {k : String} {pre suf : List (String × J)}
    (h : hasKey k pre = false) : lookupJ k (pre ++ suf) = lookupJ k suf := by
  induction pre with
  | nil => rfl
  | cons a pre ih =>
    unfold hasKey at h
    simp only [List.any_cons, Bool.or_eq_false_iff] at h
    rw [List.cons_append]
    show (if (a.1 == k) = true then some a.2 else lookupJ k (pre ++ suf)) = lookupJ k suf
    rw [h.1]
    simp only [Bool.false_eq_true, if_false]
    exact ih h.2

theorem setKeyJ_append_keyFree {k : String} {v : J} {pre suf : List (String × J)}
    (h : hasKey k pre = false) :
    setKeyJ k v (pre ++ suf) = pre ++ setKeyJ k v suf := by
  have hentry : ∀ kv ∈ pre, (kv.1 == k) = false := by
    intro kv hkv
    unfold hasKey at h
    rcases List.any_eq_false.mp h kv hkv |> fun hh => hh with hh
    cases hb : (kv.1 == k) with
    | false => rfl
    | true => exact absurd hb hh
  unfold setKeyJ
  unfold hasKey
  rw [List.any_append]
  cases hs : suf.any (fun kv => kv.1 == k) with
  | true =>
    unfold hasKey at h
    rw [h]
    simp only [Bool.false_or, if_true]
    rw [List.map_append]
    refine congrArg (· ++ suf.map _) ?_
    refine List.map_congr_left (fun kv hkv => ?_) |>.trans (List.map_id pre)
    rw [hentry kv hkv]
    simp
  | false =>
    unfold hasKey at h
    rw [h]
    simp only [Bool.false_or, Bool.false_eq_true, if_false]
    rw [List.append_assoc]

theorem pushData_prefix {pre : List (String × J)} {k : String}
    (fl : List String) (suf : List (String × J)) (v : J)
    (hk : hasKey k pre = false) :
    ∃ suf2, pushData fl (pre ++ suf) k v = pre ++ suf2 := by
  cases hlk : lookupJ k suf with
  | none =>
    cases hfl : fl.contains k with
    | true =>
      refine ⟨suf ++ [(k, J.arr [v])], ?_⟩
      unfold pushData
      rw [lookupJ_append_left_none hk, hlk]
      show (if fl.contains k = true then (pre ++ suf) ++ [(k, J.arr [v])]
        else (pre ++ suf) ++ [(k, v)]) = pre ++ (suf ++ [(k, J.arr [v])])
      rw [hfl]
      simp only [if_true]
      rw [List.append_assoc]
    | false =>
      refine ⟨suf ++ [(k, v)], ?_⟩
      unfold pushData
      rw [lookupJ_append_left_none hk, hlk]
      show (if fl.contains k = true then (pre ++ suf) ++ [(k, J.arr [v])]
        else (pre ++ suf) ++ [(k, v)]) = pre ++ (suf ++ [(k, v)])
      rw [hfl]
      simp only [Bool.false_eq_true, if_false]
      rw [List.append_assoc]
  | some old =>
    cases old with
    | arr l =>
      refine ⟨setKeyJ k (J.arr (l ++ [v])) suf, ?_⟩
      unfold pushData
      rw [lookupJ_append_left_none hk, hlk]
      exact setKeyJ_append_keyFree hk
    | str s =>
      refine ⟨setKeyJ k (J.arr [.str s, v]) suf, ?_⟩
      unfold pushData
      rw [lookupJ_append_left_none hk, hlk]
      exact setKeyJ_append_keyFree hk
    | null =>
      refine ⟨setKeyJ k (J.arr [.null, v]) suf, ?_⟩
      unfold pushData
      rw [lookupJ_append_left_none hk, hlk]
      exact setKeyJ_append_keyFree hk
    | obj d =>
      refine ⟨setKeyJ k (J.arr [.obj d, v]) suf, ?_⟩
      unfold pushData
      rw [lookupJ_append_left_none hk, hlk]
      exact setKeyJ_append_keyFree hk

theorem foldl_pushData_prefix (fl : List String) (pre : List (String × J))
    (pushes : List (String × J))
    (h : ∀ kv ∈ pushes, hasKey kv.1 pre = false) :
    ∀ suf, ∃ suf2,
      pushes.foldl (fun acc kv => pushData fl acc kv.1 kv.2) (pre ++ suf) =
        pre ++ suf2 := by
  induction pushes with
  | nil => exact fun suf => ⟨suf, rfl⟩
  | cons a ps ih =>
    intro suf
    rw [List.foldl_cons]
    obtain ⟨suf1, hs1⟩ := pushData_prefix fl suf a.2 (h a (List.mem_cons_self a ps))
    rw [hs1]
    exact ih (fun kv hkv => h kv (List.mem_cons_of_mem a hkv)) suf1

/-!
## Claim theorems
-/

/-- C1: For every eligible element, the mixed-content serializer produces
a content list in exact document order: leading text first (if non-blank,
whitespace preserved verbatim), then for each child in order an element
segment (type = namespace-stripped tag, value = the child's own leading
text or empty, plus the child's namespace-stripped attributes), followed
immediately by a text segment for that child's non-blank tail. -/
theorem c1_serializer_order (e : XElem) (he : isEligible e = true) :
    lookupJ "content" (serialize_mixed_content e) =
      some (J.arr ((specOrderedSegments e).map segToJson)) := by
  rw [serialize_lookup_content e (isEligible_hasMixed he), serializeContentList_spec]

/-- The spec's §8 example element `<note>Pre <hi rend="sup">3</hi>Post</note>`. -/
def noteEx : XElem :=
  .mk "\x7bhttp://www.tei-c.org/ns/1.0\x7dnote" [] (some "Pre ") none
    [.mk "\x7bhttp://www.tei-c.org/ns/1.0\x7dhi" [("rend", "sup")] (some "3")
      (some "Post") []]

theorem c1_witness :
    isEligible noteEx = true ∧
    lookupJ "content" (serialize_mixed_content noteEx) =
      some (J.arr [J.obj [("type", J.str "text"), ("value", J.str "Pre ")],
        J.obj [("type", J.str "hi"), ("value", J.str "3"), ("rend", J.str "sup")],
        J.obj [("type", J.str "text"), ("value", J.str "Post")]]) :=
  ⟨rfl, (c1_serializer_order noteEx rfl).trans rfl⟩

/-- C10: For every element on which the marking pass invokes the
serializer (i.e. every eligible element), the serializer's plain-value
fallback branch is unreachable: the result always carries a `content` list
and never a bare `value` field. -/
theorem c10_no_fallback (e : XElem) (he : isEligible e = true) :
    (∃ L, lookupJ "content" (serialize_mixed_content e) = some (J.arr L)) ∧
    lookupJ "value" (serialize_mixed_content e) = none :=
  ⟨⟨serializeContentList e, serialize_lookup_content e (isEligible_hasMixed he)⟩,
    serialize_lookup_value e (isEligible_hasMixed he)⟩

/-- An element that is eligible through tail text only. -/
def senseEx : XElem :=
  .mk "\x7bhttp://www.tei-c.org/ns/1.0\x7dsense" [] none none
    [.mk "\x7bhttp://www.tei-c.org/ns/1.0\x7dref" [] (some "r") (some " tail") []]

theorem c10_witness :
    (∃ L, lookupJ "content" (serialize_mixed_content senseEx) = some (J.arr L)) ∧
    lookupJ "value" (serialize_mixed_content senseEx) = none :=
  c10_no_fallback senseEx rfl

/-- C7: The reconciliation pass is idempotent: applying
`extract_mixed_content_from_json` a second time to a tree it has already
reconciled returns that tree unchanged (for every parse function: no
auxiliary key with a parseable value remains, and re-running the dedup
removal is a no-op). -/
theorem c7_reconciliation_idempotent (p : ParseFn) (x : J) :
    extract_mixed_content_from_json p (extract_mixed_content_from_json p x) =
      extract_mixed_content_from_json p x :=
  extract_idem p x

/-- C9 (amended): the pre-conversion rename is the blind textual
replacement of the substrings `xml:id` and `xml:lang` in the whole
serialized document; a part of the document containing neither substring
is left unchanged (in particular the claim's frame holds only when no
character data contains the reserved names). -/
theorem c9_rename_frame (s : String) (h1 : occursStr "xml:id" s = false)
    (h2 : occursStr "xml:lang" s = false) : renameTxt s = s := by
  unfold renameTxt
  rw [pyReplace_of_not_contains h1, pyReplace_of_not_contains h2]

theorem c9_witness : renameTxt "<entry lang=\"de\">text</entry>" =
    "<entry lang=\"de\">text</entry>" :=
  c9_rename_frame "<entry lang=\"de\">text</entry>" rfl rfl

/-- A document whose character data mentions `xml:id`. -/
def textDoc : XElem :=
  .mk "\x7bhttp://www.tei-c.org/ns/1.0\x7dnote" [] (some "see xml:id here") none []

/-- C9 counterexample: the rename step alters character data containing
`xml:id`, contradicting the claim that no character data is altered. -/
theorem c9_counterexample :
    xmlToString textDoc = "<note>see xml:id here</note>" ∧
    renameTxt (xmlToString textDoc) = "<note>see xmlId here</note>" ∧
    renameTxt (xmlToString textDoc) ≠ xmlToString textDoc := by
  have hx : xmlToString textDoc = "<note>see xml:id here</note>" := by
    simp only [textDoc]
    rw [xmlToString_eq]
    rfl
  refine ⟨hx, ?_, ?_⟩
  · rw [hx]
    rfl
  · rw [hx]
    intro h
    have h2 : renameTxt "<note>see xml:id here</note>" =
        "<note>see xmlId here</note>" := rfl
    rw [h] at h2
    exact absurd h2 (by decide)

/-- The entry list of an object value. -/
def objEntries : J → List (String × J)
  | .obj d => d
  | _ => []

theorem keepKey_eq_true_iff (ets : List J) (k : String) :
    keepKey ets k = true ↔
      (k ≠ "" ∧ (k = "content" ∨ k = "type" ∨ isAttrKey k = true ∨
        memStrTypes ets k = false)) := by
  unfold keepKey
  simp [Bool.and_eq_true, Bool.or_eq_true, Bool.not_eq_true', or_assoc]

/-- C2: After the full reconciliation pass, for every object node of the
output that carries a non-empty `content` list, no other key of that node
(outside `@`-prefixed keys and `content`/`type` themselves) equals the
`type` value of any segment of that `content` list. -/
theorem c2_no_duplicate_keys (p : ParseFn) (x : J) (d : List (String × J))
    (hsub : SubJ (.obj d) (extract_mixed_content_from_json p x))
    (L : List J) (hc : lookupJ "content" d = some (.arr L)) (hne : L ≠ [])
    (kv : String × J) (hkv : kv ∈ d) (h1 : kv.1 ≠ "content") (h2 : kv.1 ≠ "type")
    (h3 : isAttrKey kv.1 = false) :
    ∀ seg ∈ L, ∀ s, seg = J.obj s → lookupJ "type" s ≠ some (J.str kv.1) := by
  intro seg hseg s hs hty
  have hok : nodeOk d := extract_nodeOk p x d hsub
  have hmem : memStrTypes (elementTypes (J.arr L)) kv.1 = false :=
    hok (J.arr L) hc kv hkv h1 h2 h3
  have hmem2 : memStrTypes (elementTypes (J.arr L)) kv.1 = true := by
    unfold memStrTypes
    apply List.any_eq_true.mpr
    refine ⟨J.str kv.1, ?_, by simp [strHit]⟩
    unfold elementTypes
    apply List.mem_filterMap.mpr
    refine ⟨seg, hseg, ?_⟩
    rw [hs]
    show lookupJ "type" s = some (J.str kv.1)
    exact hty
  rw [hmem] at hmem2
  exact absurd hmem2 (by simp)

/-- A parse function that rejects every string (used to instantiate the
reconciliation pass on concrete inputs whose auxiliary values, if any, are
malformed). -/
def pNone : ParseFn :=
  ⟨fun _ => none, fun _ _ h => absurd h (by simp)⟩

def dC2 : List (String × J) :=
  [("content", J.arr [J.obj [("type", J.str "hi"), ("value", J.str "3")]]),
    ("note", J.str "n")]

theorem extract_pNone_dC2 :
    extract_mixed_content_from_json pNone (J.obj dC2) = J.obj dC2 := by
  simp [extract_obj, extract_arr, extract_str, extract_null, clean_obj, clean_arr,
    clean_str, clean_null, stepA, lookupJ, applyPop, elementTypes, segType,
    memStrTypes, strHit, keepKey, isAttrKey, pNone, dC2]

theorem c2_witness :
    lookupJ "type" [("type", J.str "hi"), ("value", J.str "3")] ≠
      some (J.str "note") := by
  exact c2_no_duplicate_keys pNone (J.obj dC2) dC2
    (by rw [extract_pNone_dC2]; exact SubJ.refl (J.obj dC2))
    [J.obj [("type", J.str "hi"), ("value", J.str "3")]] rfl (by simp)
    ("note", J.str "n") (by simp [dC2]) (by simp) (by simp) rfl
    (J.obj [("type", J.str "hi"), ("value", J.str "3")]) (by simp)
    [("type", J.str "hi"), ("value", J.str "3")] rfl

/-- C8 (amended): at a node with a `content` key, the dedup step keeps a
key (with its value recursively cleaned) exactly when the key is not the
empty string and additionally is `content`, `type`, `@`-prefixed, or
absent from the segment types; equivalently it deletes exactly the
empty-string key plus the keys satisfying the claim's three conditions. -/
theorem c8_dedup_deletions (d : List (String × J)) (c : J)
    (hc : lookupJ "content" d = some c) (kv : String × J) (hkv : kv ∈ d) :
    ((kv.1, clean_mixed_content_duplicates kv.2) ∈
        objEntries (clean_mixed_content_duplicates (J.obj d)) ↔
      (kv.1 ≠ "" ∧ (kv.1 = "content" ∨ kv.1 = "type" ∨ isAttrKey kv.1 = true ∨
        memStrTypes (elementTypes c) kv.1 = false))) := by
  rw [clean_obj_entries]
  show _ ∈ cleanObjEntries d ↔ _
  have hu : cleanObjEntries d =
      (d.map (fun kv => (kv.1, clean_mixed_content_duplicates kv.2))).filter
        (fun kv => keepKey (elementTypes c) kv.1) := by
    unfold cleanObjEntries
    exact applyPop_some _ hc
  rw [hu]
  constructor
  · intro h
    have hkeep := (List.mem_filter.mp h).2
    exact (keepKey_eq_true_iff _ _).mp hkeep
  · intro h
    refine List.mem_filter.mpr ⟨?_, (keepKey_eq_true_iff _ _).mpr h⟩
    exact List.mem_map_of_mem _ hkv

def dC8 : List (String × J) :=
  [("content", J.arr [J.obj [("type", J.str "x"), ("value", J.str "v")]]),
    ("", J.str "T"), ("y", J.str "z")]

/-- C8 counterexample: in `dC8` the empty-string key satisfies none of the
claim's three deletion conditions (its name matches no segment type, and
it is neither `content`/`type` nor `@`-prefixed), yet the dedup step
deletes it — so the step does not delete *exactly* the keys satisfying the
three conditions. -/
theorem c8_counterexample :
    lookupJ "" dC8 = some (J.str "T") ∧
    isAttrKey "" = false ∧
    memStrTypes (elementTypes (J.arr [J.obj [("type", J.str "x"),
      ("value", J.str "v")]])) "" = false ∧
    lookupJ "" (objEntries (clean_mixed_content_duplicates (J.obj dC8))) = none := by
  refine ⟨rfl, rfl, rfl, ?_⟩
  rw [clean_obj_entries]
  show lookupJ "" (cleanObjEntries dC8) = none
  rw [show cleanObjEntries dC8 =
    (dC8.map (fun kv => (kv.1, clean_mixed_content_duplicates kv.2))).filter
      (fun kv => keepKey (elementTypes (J.arr [J.obj [("type", J.str "x"),
        ("value", J.str "v")]])) kv.1) from applyPop_some _ rfl]
  rw [lookupJ_filter_keys]
  rfl

theorem c8_witness :
    (("y", clean_mixed_content_duplicates (J.str "z")) ∈
        objEntries (clean_mixed_content_duplicates (J.obj dC8)) ↔
      ("y" ≠ "" ∧ ("y" = "content" ∨ "y" = "type" ∨ isAttrKey "y" = true ∨
        memStrTypes (elementTypes (J.arr [J.obj [("type", J.str "x"),
          ("value", J.str "v")]])) "y" = false))) :=
  c8_dedup_deletions dC8 (J.arr [J.obj [("type", J.str "x"), ("value", J.str "v")]])
    rfl ("y", J.str "z") (by simp [dC8])

/-- C6 (amended): if parsing a node's auxiliary encoding fails, merging is
silently skipped for that node only — the node is processed exactly as if
the merge logic were absent (children still reconciled, dedup still
applied), no error is surfaced, and the auxiliary key is *retained* with
its malformed value (the code deletes it only on a successful parse), so
on a node of generic shape the malformed auxiliary attribute survives into
the output. -/
theorem c6_parse_failure_skips_merge (p : ParseFn) (d : List (String × J))
    (s : String) (haux : lookupJ "mixed-content-json" d = some (.str s))
    (hrun : p.run s = none) :
    extract_mixed_content_from_json p (.obj d) =
      clean_mixed_content_duplicates (.obj (d.map (fun kv =>
        (kv.1, extract_mixed_content_from_json p kv.2)))) ∧
    (lookupJ "content" d = none →
      lookupJ "mixed-content-json"
        (objEntries (extract_mixed_content_from_json p (.obj d))) =
        some (.str s)) := by
  have h1 : extract_mixed_content_from_json p (.obj d) =
      clean_mixed_content_duplicates (.obj (d.map (fun kv =>
        (kv.1, extract_mixed_content_from_json p kv.2)))) := by
    rw [extract_obj, stepA_eq_of_run_none haux hrun]
  refine ⟨h1, fun hnc => ?_⟩
  rw [h1, clean_obj_entries]
  show lookupJ "mixed-content-json" (cleanObjEntries
    (d.map (fun kv => (kv.1, extract_mixed_content_from_json p kv.2)))) = _
  have hnc2 : lookupJ "content"
      (d.map (fun kv => (kv.1, extract_mixed_content_from_json p kv.2))) = none := by
    rw [lookupJ_map_vals, hnc]
    rfl
  unfold cleanObjEntries
  rw [applyPop_none _ hnc2]
  rw [lookupJ_map_vals, lookupJ_map_vals, haux]
  rw [show ((some (J.str s)).map (extract_mixed_content_from_json p)).map
    clean_mixed_content_duplicates =
    some (clean_mixed_content_duplicates (extract_mixed_content_from_json p (J.str s)))
    from rfl]
  rw [extract_str, clean_str]

def dC6 : List (String × J) :=
  [("mixed-content-json", J.str "not valid json"), ("x", J.str "1")]

/-- C6 counterexample: the claim says the auxiliary data is discarded on
parse failure, but the malformed auxiliary attribute is still present in
the node after the full reconciliation pass. -/
theorem c6_counterexample :
    lookupJ "mixed-content-json"
      (objEntries (extract_mixed_content_from_json pNone (J.obj dC6))) =
      some (J.str "not valid json") := by
  have h1 : extract_mixed_content_from_json pNone (J.obj dC6) =
      clean_mixed_content_duplicates (.obj (dC6.map (fun kv =>
        (kv.1, extract_mixed_content_from_json pNone kv.2)))) := by
    rw [extract_obj, stepA_eq_of_run_none
      (show lookupJ "mixed-content-json" dC6 = some (J.str "not valid json") from rfl)
      rfl]
  rw [h1]
  simp only [dC6, List.map_cons, List.map_nil]
  rw [extract_str, extract_str]
  rw [clean_obj_entries]
  show lookupJ "mixed-content-json" (cleanObjEntries
    [("mixed-content-json", J.str "not valid json"), ("x", J.str "1")]) = _
  unfold cleanObjEntries
  rw [applyPop_none _ (show lookupJ "content"
    [("mixed-content-json", J.str "not valid json"), ("x", J.str "1")] = none from rfl)]
  simp only [List.map_cons, List.map_nil]
  rw [clean_str, clean_str]
  rfl

theorem c6_witness :
    extract_mixed_content_from_json pNone (J.obj dC6) =
      clean_mixed_content_duplicates (.obj (dC6.map (fun kv =>
        (kv.1, extract_mixed_content_from_json pNone kv.2)))) ∧
    (lookupJ "content" dC6 = none →
      lookupJ "mixed-content-json"
        (objEntries (extract_mixed_content_from_json pNone (J.obj dC6))) =
        some (.str "not valid json")) :=
  c6_parse_failure_skips_merge pNone dC6 "not valid json" rfl rfl

set_option maxHeartbeats 1000000 in
/-- C4 (amended): the generic converter (`xmltodict.parse` with
`attr_prefix=""`) stores every attribute of an element under its bare
serialized name — no `@` sentinel and no namespace stripping beyond what
serialization itself does — as a prefix of the node's entry list (provided
no child tag and no empty cdata key collides with an attribute name; the
`@`-prefixed attribute keys of the spec exist only in the mixed-content
serializer's output). -/
theorem c4_attrs_bare_names (tag : String) (al : List (String × String))
    (text tail : Option String) (ch : List XElem)
    (hne : al ≠ [])
    (hchild : ∀ c ∈ ch, ∀ kv ∈ al, serName c.tag ≠ serName kv.1)
    (hcd : ∀ kv ∈ al, serName kv.1 ≠ "") :
    ∃ rest, xmltodict_convert (.mk tag al text tail ch) =
      J.obj (al.map (fun kv => (serName kv.1, J.str (renameTxt kv.2))) ++ rest) := by
  rw [xmltodict_convert_eq]
  have hkeys : ∀ kv0 ∈ ch.map (fun c => (serName c.tag, xmltodict_convert c)),
      hasKey kv0.1 (al.map (fun kv => (serName kv.1, J.str (renameTxt kv.2)))) =
        false := by
    intro kv0 hm
    obtain ⟨c, hc, he⟩ := List.mem_map.mp hm
    apply List.any_eq_false.mpr
    intro kv1 hm1
    obtain ⟨a, ha, hea⟩ := List.mem_map.mp hm1
    intro hbeq
    have h1 : kv1.1 = kv0.1 := eq_of_beq hbeq
    have h2 : kv1.1 = serName a.1 := by rw [← hea]
    have h3 : kv0.1 = serName c.tag := by rw [← he]
    exact hchild c hc a ha (by rw [← h3, ← h1, h2])
  obtain ⟨suf2, hs2⟩ := foldl_pushData_prefix forceListTags
    (al.map (fun kv => (serName kv.1, J.str (renameTxt kv.2))))
    (ch.map (fun c => (serName c.tag, xmltodict_convert c))) hkeys []
  rw [List.append_nil] at hs2
  rw [hs2]
  have hempty : (al.map (fun kv => (serName kv.1, J.str (renameTxt kv.2))) ++
      suf2).isEmpty = false := by
    cases hal : al with
    | nil => exact absurd hal hne
    | cons a al2 => rfl
  unfold xmltodictAssemble
  rw [hempty]
  simp only [Bool.false_eq_true, if_false]
  cases hcdv : (xmlCData (.mk tag al text tail ch) == "") with
  | true =>
    simp only [if_true]
    exact ⟨suf2, rfl⟩
  | false =>
    simp only [Bool.false_eq_true, if_false]
    have hkey0 : hasKey ""
        (al.map (fun kv => (serName kv.1, J.str (renameTxt kv.2)))) = false := by
      apply List.any_eq_false.mpr
      intro kv1 hm1
      obtain ⟨a, ha, hea⟩ := List.mem_map.mp hm1
      intro hbeq
      exact hcd a ha (by rw [← (show kv1.1 = serName a.1 from by rw [← hea])]; exact eq_of_beq hbeq)
    obtain ⟨suf3, hs3⟩ := pushData_prefix forceListTags suf2
      (J.str (xmlCData (.mk tag al text tail ch))) hkey0
    rw [hs3]
    exact ⟨suf3, rfl⟩

/-- A source element with a plain attribute: `<hi rend="sup">3</hi>`. -/
def hiX : XElem :=
  .mk "\x7bhttp://www.tei-c.org/ns/1.0\x7dhi" [("rend", "sup")] (some "3") none []

/-- C4 counterexample: in the generic tree the attribute `rend` appears
under the bare key `rend`, and there is no `@rend` key — the `@` sentinel
prefix is not retained by the generic converter. -/
theorem c4_counterexample :
    xmltodict_convert hiX = J.obj [("rend", J.str "sup"), ("", J.str "3")] ∧
    lookupJ "@rend" (objEntries (xmltodict_convert hiX)) = none ∧
    lookupJ "rend" (objEntries (xmltodict_convert hiX)) = some (J.str "sup") := by
  have h : xmltodict_convert hiX = J.obj [("rend", J.str "sup"), ("", J.str "3")] := by
    simp only [hiX]
    rw [xmltodict_convert_eq]
    rfl
  refine ⟨h, ?_, ?_⟩
  · rw [h]
    rfl
  · rw [h]
    rfl

theorem c4_witness :
    ∃ rest, xmltodict_convert (.mk "\x7bhttp://www.tei-c.org/ns/1.0\x7dhi"
        [("rend", "sup")] (some "3") none []) =
      J.obj ([("rend", "sup")].map (fun kv =>
        (serName kv.1, J.str (renameTxt kv.2))) ++ rest) := by
  exact c4_attrs_bare_names _ [("rend", "sup")] (some "3") none []
    (by simp) (by simp) (by intro kv hm; simp at hm; rw [hm]; decide)

/-- C5 (amended): a non-eligible element containing only text (no
children, no attributes) is collapsed by the generic converter to the bare
scalar string itself — not an object, so in particular neither a `content`
list nor a `value` field. -/
theorem c5_text_only_scalar (tag : String) (text tail : Option String)
    (hcd : xmlCData (.mk tag [] text tail []) ≠ "") :
    xmltodict_convert (.mk tag [] text tail []) =
      J.str (xmlCData (.mk tag [] text tail [])) ∧
    ∀ d, xmltodict_convert (.mk tag [] text tail []) ≠ J.obj d := by
  have h : xmltodict_convert (.mk tag [] text tail []) =
      J.str (xmlCData (.mk tag [] text tail [])) := by
    rw [xmltodict_convert_eq]
    unfold xmltodictAssemble
    simp only [List.map_nil, List.foldl_nil, List.isEmpty_nil, if_true]
    rw [beq_eq_false_iff_ne.mpr hcd]
    simp
  exact ⟨h, fun d hd => by rw [h] at hd; exact absurd hd (by simp)⟩

/-- The spec's §8 ineligible example `<def>Simple text only</def>`. -/
def defExample : XElem :=
  .mk "\x7bhttp://www.tei-c.org/ns/1.0\x7ddef" [] (some "Simple text only") none []

/-- C5 counterexample: the marking pass leaves the ineligible `def`
element untouched, and the conversion yields the bare string
`"Simple text only"`, not the object `{"value": "Simple text only"}`
stated by the claim. -/
theorem c5_counterexample :
    handle_mixed_content_elements defExample = defExample ∧
    xmltodict_convert defExample = J.str "Simple text only" ∧
    xmltodict_convert defExample ≠ J.obj [("value", J.str "Simple text only")] := by
  have hel : isEligible defExample = false := rfl
  have hstep : ∀ t, handle_pass t defExample = defExample := by
    intro t
    show handle_pass t (.mk "\x7bhttp://www.tei-c.org/ns/1.0\x7ddef" []
      (some "Simple text only") none []) = _
    rw [handle_pass_eq]
    rw [show isEligible (.mk "\x7bhttp://www.tei-c.org/ns/1.0\x7ddef" []
      (some "Simple text only") none []) = false from rfl]
    simp only [Bool.and_false, Bool.false_eq_true, if_false, List.map_nil]
    rfl
  have hconv : xmltodict_convert defExample = J.str "Simple text only" := by
    simp only [defExample]
    rw [xmltodict_convert_eq]
    rfl
  refine ⟨?_, hconv, ?_⟩
  · unfold handle_mixed_content_elements mixedContentTags
    simp only [List.foldl_cons, List.foldl_nil, hstep]
  · rw [hconv]
    simp

theorem c5_witness :
    xmltodict_convert (.mk "\x7bhttp://www.tei-c.org/ns/1.0\x7ddef" []
        (some "Simple text only") none []) =
      J.str (xmlCData (.mk "\x7bhttp://www.tei-c.org/ns/1.0\x7ddef" []
        (some "Simple text only") none [])) ∧
    ∀ d, xmltodict_convert (.mk "\x7bhttp://www.tei-c.org/ns/1.0\x7ddef" []
        (some "Simple text only") none []) ≠ J.obj d :=
  c5_text_only_scalar "\x7bhttp://www.tei-c.org/ns/1.0\x7ddef"
    (some "Simple text only") none (by decide)

/-- The failing input for C3: a document with one eligible `note`. -/
def noteDoc : XElem :=
  .mk "\x7bhttp://www.tei-c.org/ns/1.0\x7dentry" [] none none
    [.mk "\x7bhttp://www.tei-c.org/ns/1.0\x7dnote" [] (some "Pre ") none
      [.mk "\x7bhttp://www.tei-c.org/ns/1.0\x7dhi" [("rend", "sup")] (some "3")
        (some "Post") []]]

/-- `noteDoc` after the marking pass: the eligible `note` carries the
auxiliary attribute with the `json.dumps` of its serialized content. -/
def noteDocMarked : XElem :=
  .mk "\x7bhttp://www.tei-c.org/ns/1.0\x7dentry" [] none none
    [.mk "\x7bhttp://www.tei-c.org/ns/1.0\x7dnote"
      [("mixed-content-json",
        "\x7b\"content\": [\x7b\"type\": \"text\", \"value\": \"Pre \"\x7d, \x7b\"type\": \"hi\", \"value\": \"3\", \"rend\": \"sup\"\x7d, \x7b\"type\": \"text\", \"value\": \"Post\"\x7d]\x7d")]
      (some "Pre ") none
      [.mk "\x7bhttp://www.tei-c.org/ns/1.0\x7dhi" [("rend", "sup")] (some "3")
        (some "Post") []]]

set_option maxHeartbeats 2000000 in
theorem handle_noteDoc_note_pass : handle_pass "note" noteDoc = noteDocMarked := by
  have hj : jDump (J.obj (serialize_mixed_content
      (.mk "\x7bhttp://www.tei-c.org/ns/1.0\x7dnote" [] (some "Pre ") none
        [.mk "\x7bhttp://www.tei-c.org/ns/1.0\x7dhi" [("rend", "sup")] (some "3")
          (some "Post") []]))) =
      "\x7b\"content\": [\x7b\"type\": \"text\", \"value\": \"Pre \"\x7d, \x7b\"type\": \"hi\", \"value\": \"3\", \"rend\": \"sup\"\x7d, \x7b\"type\": \"text\", \"value\": \"Post\"\x7d]\x7d" := by
    rw [show serialize_mixed_content
      (.mk "\x7bhttp://www.tei-c.org/ns/1.0\x7dnote" [] (some "Pre ") none
        [.mk "\x7bhttp://www.tei-c.org/ns/1.0\x7dhi" [("rend", "sup")] (some "3")
          (some "Post") []]) =
      [("content", J.arr [J.obj [("type", J.str "text"), ("value", J.str "Pre ")],
        J.obj [("type", J.str "hi"), ("value", J.str "3"), ("rend", J.str "sup")],
        J.obj [("type", J.str "text"), ("value", J.str "Post")]])] from rfl]
    simp only [jDump_obj, jDump_arr, jDump_str, List.map_cons, List.map_nil]
    rfl
  simp only [noteDoc, noteDocMarked]
  rw [handle_pass_eq]
  simp only [List.map_cons, List.map_nil]
  rw [handle_pass_eq]
  simp only [List.map_cons, List.map_nil]
  rw [handle_pass_eq]
  simp only [List.map_nil]
  rw [hj]
  rfl

theorem handle_noteDoc_skip_hi (t : String)
    (h3 : ("\x7bhttp://www.tei-c.org/ns/1.0\x7dhi" == teiClark t) = false) :
    handle_pass t (.mk "\x7bhttp://www.tei-c.org/ns/1.0\x7dhi"
      [("rend", "sup")] (some "3") (some "Post") []) =
      .mk "\x7bhttp://www.tei-c.org/ns/1.0\x7dhi" [("rend", "sup")] (some "3")
        (some "Post") [] := by
  rw [handle_pass_eq, h3]
  simp only [Bool.false_and, Bool.false_eq_true, if_false, List.map_nil]

theorem handle_noteDoc_skip_note (t : String)
    (h2 : ("\x7bhttp://www.tei-c.org/ns/1.0\x7dnote" == teiClark t) = false)
    (h3 : ("\x7bhttp://www.tei-c.org/ns/1.0\x7dhi" == teiClark t) = false) :
    handle_pass t (.mk "\x7bhttp://www.tei-c.org/ns/1.0\x7dnote"
      [("mixed-content-json",
        "\x7b\"content\": [\x7b\"type\": \"text\", \"value\": \"Pre \"\x7d, \x7b\"type\": \"hi\", \"value\": \"3\", \"rend\": \"sup\"\x7d, \x7b\"type\": \"text\", \"value\": \"Post\"\x7d]\x7d")]
      (some "Pre ") none
      [.mk "\x7bhttp://www.tei-c.org/ns/1.0\x7dhi" [("rend", "sup")] (some "3")
        (some "Post") []]) =
      .mk "\x7bhttp://www.tei-c.org/ns/1.0\x7dnote"
      [("mixed-content-json",
        "\x7b\"content\": [\x7b\"type\": \"text\", \"value\": \"Pre \"\x7d, \x7b\"type\": \"hi\", \"value\": \"3\", \"rend\": \"sup\"\x7d, \x7b\"type\": \"text\", \"value\": \"Post\"\x7d]\x7d")]
      (some "Pre ") none
      [.mk "\x7bhttp://www.tei-c.org/ns/1.0\x7dhi" [("rend", "sup")] (some "3")
        (some "Post") []] := by
  rw [handle_pass_eq, h2]
  simp only [Bool.false_and, Bool.false_eq_true, if_false, List.map_cons, List.map_nil]
  rw [handle_noteDoc_skip_hi t h3]

theorem handle_noteDoc_skip (t : String)
    (h1 : ("\x7bhttp://www.tei-c.org/ns/1.0\x7dentry" == teiClark t) = false)
    (h2 : ("\x7bhttp://www.tei-c.org/ns/1.0\x7dnote" == teiClark t) = false)
    (h3 : ("\x7bhttp://www.tei-c.org/ns/1.0\x7dhi" == teiClark t) = false) :
    handle_pass t noteDocMarked = noteDocMarked := by
  simp only [noteDocMarked]
  rw [handle_pass_eq, h1]
  simp only [Bool.false_and, Bool.false_eq_true, if_false, List.map_cons, List.map_nil]
  rw [handle_noteDoc_skip_note t h2 h3]

theorem handle_noteDoc_step4 : handle_pass "cit" (handle_pass "quote"
    (handle_pass "def" (handle_pass "note" noteDoc))) = noteDocMarked := by
  rw [handle_noteDoc_note_pass, handle_noteDoc_skip "def" rfl rfl rfl,
    handle_noteDoc_skip "quote" rfl rfl rfl, handle_noteDoc_skip "cit" rfl rfl rfl]

theorem handle_noteDoc_step7 : handle_pass "sense" (handle_pass "etym"
    (handle_pass "bibl" (handle_pass "cit" (handle_pass "quote" (handle_pass "def"
    (handle_pass "note" noteDoc)))))) = noteDocMarked := by
  rw [handle_noteDoc_step4, handle_noteDoc_skip "bibl" rfl rfl rfl,
    handle_noteDoc_skip "etym" rfl rfl rfl, handle_noteDoc_skip "sense" rfl rfl rfl]

set_option maxHeartbeats 2000000 in
theorem handle_noteDoc : handle_mixed_content_elements noteDoc = noteDocMarked := by
  show List.foldl (fun acc t => handle_pass t acc) noteDoc
    ["note", "def", "quote", "cit", "bibl", "etym", "sense"] = noteDocMarked
  rw [List.foldl_cons, List.foldl_cons, List.foldl_cons, List.foldl_cons,
    List.foldl_cons, List.foldl_cons, List.foldl_cons, List.foldl_nil]
  show handle_pass "sense" (handle_pass "etym" (handle_pass "bibl" (handle_pass "cit"
    (handle_pass "quote" (handle_pass "def" (handle_pass "note" noteDoc)))))) =
    noteDocMarked
  exact handle_noteDoc_step7

set_option maxHeartbeats 2000000 in
/-- C3: the `tei_xml` output field is computed by serializing the tree
*after* `handle_mixed_content_elements` mutated it, so for any document
with an eligible element it contains the auxiliary `mixed-content-json`
attribute and differs from the canonical serialization of the parsed
input — contradicting the claim (and the code's own comment
`Original TEI XML als String`). -/
theorem c3_tei_xml_contains_aux :
    occursStr "mixed-content-json" (tei_xml_field noteDoc) = true ∧
    occursStr "mixed-content-json" (xmlToString noteDoc) = false ∧
    tei_xml_field noteDoc ≠ xmlToString noteDoc := by
  have hx : tei_xml_field noteDoc = xmlToString noteDocMarked := by
    unfold tei_xml_field
    rw [handle_noteDoc]
  have hm : occursStr "mixed-content-json" (xmlToString noteDocMarked) = true := by
    simp only [noteDocMarked]
    rw [xmlToString_eq]
    simp only [List.map_cons, List.map_nil]
    rw [xmlToString_eq]
    simp only [List.map_cons, List.map_nil]
    rw [xmlToString_eq]
    simp only [List.map_nil]
    rfl
  have hn : occursStr "mixed-content-json" (xmlToString noteDoc) = false := by
    simp only [noteDoc]
    rw [xmlToString_eq]
    simp only [List.map_cons, List.map_nil]
    rw [xmlToString_eq]
    simp only [List.map_cons, List.map_nil]
    rw [xmlToString_eq]
    simp only [List.map_nil]
    rfl
  refine ⟨by rw [hx]; exact hm, hn, ?_⟩
  intro h
  have h2 : occursStr "mixed-content-json" (xmlToString noteDoc) = true := by
    rw [← h, hx]
    exact hm
  rw [hn] at h2
  exact absurd h2 (by simp)
